import Mathlib

/-!
Shallow embedding of `protocol/decode.go` from the kafka-go repository:
the bounded frame reader (`decoder`), its sticky-error machinery, the
primitive and variable-length decoders, the array decoder, and the schema
compiler (`decodeFuncOf` and friends), together with proofs about the
claims of the specification.

Modelling conventions:
  * Bytes are `Nat` values; a byte source (`io.Reader` over a finite
    stream) is a `List Nat`, consumed from the front.  `binary.BigEndian`
    reinterpretations apply `% 256` to each byte where it matters.
  * Go machine integers are modelled as `Nat`/`Int` with explicit
    `% 2 ^ w` reductions where overflow can occur (`toSigned`).
  * Errors are the small closed set that can arise in the embedded code:
    `io.EOF`, `io.ErrUnexpectedEOF`, the varint formatting error, and an
    opaque error returned by a self-decoding type's `ReadFrom`.
  * The underlying reader either implements the optional `discarder`
    capability (`bulk = true`, e.g. `bufio.Reader`) or not
    (`bulk = false`), selecting the branch taken inside `discard`.
-/

/-- The error values reachable in the embedded code: `io.EOF`,
`io.ErrUnexpectedEOF`, the `cannot decode varint from input stream` error,
and an arbitrary error returned by a self-decoding type. -/
inductive Err where
  | eof
  | ueof
  | badVarint
  | selfDecode
deriving DecidableEq, Repr

/-- The `decoder` struct of `decode.go`:

```go
type decoder struct {
    reader io.Reader
    remain int
    buffer [8]byte
    err    error
}
```

`src` is the byte stream behind `reader` (front = next byte), `remain` the
byte budget, `err` the sticky error.  The scratch `buffer` is not state
(it only carries bytes between a read and its use) and is elided.  `bulk`
records whether `reader` implements the optional `discarder` interface. -/
structure Decoder where
  src : List Nat
  remain : Nat
  err : Option Err
  bulk : Bool
deriving DecidableEq, Repr

/-- Model of `decoder.Read`:

```go
func (d *decoder) Read(b []byte) (int, error) {
    if d.err != nil { return 0, d.err }
    if d.remain == 0 { return 0, io.EOF }
    if len(b) > d.remain { b = b[:d.remain] }
    n, err := d.reader.Read(b)
    d.remain -= n
    return n, err
}
```

The underlying reader is a finite byte stream: reading into a buffer of
size `k` returns `min k srcLen` bytes with no error when the stream is
non-empty, and `(0, io.EOF)` when it is empty.  Returns the bytes read,
the error, and the new state. -/
def Decoder.Read (d : Decoder) (n : Nat) : List Nat × Option Err × Decoder :=
  match d.err with
  | some e => ([], some e, d)
  | none =>
    if d.remain = 0 then ([], some .eof, d)
    else
      let k := min n d.remain
      match d.src with
      | [] => ([], some .eof, d)
      | _ =>
        let bs := d.src.take k
        (bs, none, { d with src := d.src.drop k, remain := d.remain - bs.length })

/-- The accumulation loop of `io.ReadFull` (i.e. `io.ReadAtLeast` with
`min = len(buf)`): keep calling `Read` until the buffer is full or an
error is returned.  Our reader never returns `(0, nil)` for a non-empty
request, so the guard branch returning `io.EOF` is dead; it only keeps
the recursion total. -/
def readFullLoop (d : Decoder) (need : Nat) : List Nat × Option Err × Decoder :=
  if h : need = 0 then ([], none, d)
  else
    match hR : d.Read need with
    | (bs, none, d') =>
      if h2 : bs.length = 0 then ([], some .eof, d')
      else
        let r := readFullLoop d' (need - bs.length)
        (bs ++ r.1, r.2.1, r.2.2)
    | (bs, some e, d') => (bs, some e, d')
termination_by need
decreasing_by omega

/-- Model of `io.ReadFull(d, b)` with `len(b) = need`: the loop above followed by
`io.ReadAtLeast`'s error post-processing — a full read reports no error,
a partial-but-non-empty read turns `io.EOF` into `io.ErrUnexpectedEOF`. -/
def ReadFull (d : Decoder) (need : Nat) : List Nat × Option Err × Decoder :=
  let r := readFullLoop d need
  if need ≤ r.1.length then (r.1, none, r.2.2)
  else if 0 < r.1.length ∧ r.2.1 = some .eof then (r.1, some .ueof, r.2.2)
  else r

/-- The state update `discardAll` performs when the sticky error is
already set (as it always is when called from `setError`, which records
the error *before* draining):

```go
func (d *decoder) discard(n int) {
    if n > d.remain { n = d.remain }
    var err error
    if r, _ := d.reader.(discarder); r != nil {
        n, err = r.Discard(n)
        d.remain -= n
    } else {
        _, err = io.Copy(ioutil.Discard, d)
    }
    d.setError(err)
}
```

With `d.err` non-nil, the `discarder` branch skips
`min(remain, srcLen)` bytes directly from the underlying reader, while in
the fallback branch `io.Copy` reads through `d.Read`, whose first action
is `return 0, d.err` — so nothing at all is drained.  Either way the
trailing recursive `setError` is a no-op because an error is already
recorded.  `discard_of_err_set` below proves this equal to the
faithful `discard`. -/
def discardAllPost (d : Decoder) : Decoder :=
  if d.bulk then
    let k := min d.remain d.src.length
    { d with src := d.src.drop k, remain := d.remain - k }
  else d

/-- Model of `setError`:

```go
func (d *decoder) setError(err error) {
    if d.err == nil && err != nil {
        d.err = err
        d.discardAll()
    }
}
```

The error is recorded first, then the remaining budget is drained; the
drain runs with the sticky error already set, which is exactly
`discardAllPost`. -/
def Decoder.setError (d : Decoder) (e : Option Err) : Decoder :=
  match d.err, e with
  | none, some e' => discardAllPost { d with err := some e' }
  | _, _ => d

/-- A successful non-empty `Read` strictly shrinks the source (the
progress fact behind the termination of the `io.Copy` loop). -/
theorem Read_none_src_lt (d : Decoder) (n : Nat) (bs : List Nat) (d' : Decoder)
    (h : d.Read n = (bs, none, d')) (hbs : bs.length ≠ 0) :
    d'.src.length < d.src.length := by
  unfold Decoder.Read at h
  cases herd : d.err with
  | some e => rw [herd] at h; simp at h
  | none =>
    rw [herd] at h
    simp only [] at h
    split at h
    · simp at h
    · split at h
      · simp at h
      · next as hne =>
        simp only [Prod.mk.injEq] at h
        obtain ⟨hbs', _, hd'⟩ := h
        subst hd'
        subst hbs'
        simp only [List.length_take] at hbs ⊢
        simp only [List.length_drop]
        omega

/-- The read loop of `io.Copy(ioutil.Discard, d)` in `discard`'s fallback
branch: repeatedly read through `d` (chunks of `io.Copy`'s 32768-byte
buffer) until an error stops the loop; `io.EOF` counts as a clean end and
is reported as no error.  Returns `io.Copy`'s error and the final state. -/
def copyDiscard (d : Decoder) : Option Err × Decoder :=
  match hR : d.Read 32768 with
  | (bs, none, d') =>
    if h2 : bs.length = 0 then (none, d')
    else copyDiscard d'
  | (_, some .eof, d') => (none, d')
  | (_, some e, d') => (some e, d')
termination_by d.src.length
decreasing_by
  exact Read_none_src_lt d 32768 bs d' hR h2

/-- Model of `discard`:

```go
func (d *decoder) discard(n int) {
    if n > d.remain { n = d.remain }
    var err error
    if r, _ := d.reader.(discarder); r != nil {
        n, err = r.Discard(n)
        d.remain -= n
    } else {
        _, err = io.Copy(ioutil.Discard, d)
    }
    d.setError(err)
}
```

In the `discarder` branch, `Discard` skips directly on the underlying
reader: it skips `min(n, srcLen)` bytes and reports `io.EOF` when fewer
than `n` bytes were available; `remain` is decremented by the bytes
actually skipped.  In the fallback branch the clamped `n` is never used:
`io.Copy` drains through `d.Read` until end of budget or source. -/
def Decoder.discard (d : Decoder) (n : Nat) : Decoder :=
  let n := min n d.remain
  if d.bulk then
    let k := min n d.src.length
    let e : Option Err := if k < n then some .eof else none
    let d' : Decoder := { d with src := d.src.drop k, remain := d.remain - k }
    d'.setError e
  else
    let r := copyDiscard d
    r.2.setError r.1

/-- Model of `discardAll`:

```go
func (d *decoder) discardAll() {
    d.discard(d.remain)
}
``` -/
def Decoder.discardAll (d : Decoder) : Decoder :=
  d.discard d.remain

/-- Model of `readFull`:

```go
func (d *decoder) readFull(b []byte) bool {
    n, err := io.ReadFull(d, b)
    d.setError(err)
    return n == len(b)
}
```

Returns the success flag, the bytes read into `b`, and the new state. -/
def Decoder.readFull (d : Decoder) (n : Nat) : Bool × List Nat × Decoder :=
  let r := ReadFull d n
  (r.1.length = n, r.1, r.2.2.setError r.2.1)

/-- Model of `read`:

```go
func (d *decoder) read(n int) []byte {
    b := make([]byte, n)
    n, err := io.ReadFull(d, b)
    b = b[:n]
    d.setError(err)
    return b
}
``` -/
def Decoder.read (d : Decoder) (n : Nat) : List Nat × Decoder :=
  let r := ReadFull d n
  (r.1, r.2.2.setError r.2.1)

/-- Model of `readByte`: `readFull(d.buffer[:1])`, returning the byte on
success and `0` on failure. -/
def Decoder.readByte (d : Decoder) : Nat × Decoder :=
  let r := d.readFull 1
  (if r.1 then r.2.1.headD 0 else 0, r.2.2)

/-- Model of `readBool`: one byte, nonzero means true. -/
def Decoder.readBool (d : Decoder) : Bool × Decoder :=
  let r := d.readByte
  (r.1 ≠ 0, r.2)

/-- Big-endian byte-list to unsigned value, as in `binary.BigEndian`;
each byte is reduced `% 256`. -/
def toUnsigned (bs : List Nat) : Nat :=
  bs.foldl (fun a b => a * 256 + b % 256) 0

/-- Reinterpret the low `w` bits of an unsigned value as a `w`-bit
two's-complement signed integer (the `int8`/`int16`/`int32`/`int64`
casts of the Go code). -/
def toSigned (w : Nat) (x : Nat) : Int :=
  if x % 2 ^ w < 2 ^ (w - 1) then ((x % 2 ^ w : Nat) : Int)
  else ((x % 2 ^ w : Nat) : Int) - 2 ^ w

/-- Model of `readInt8`: `int8(d.readByte())`. -/
def Decoder.readInt8 (d : Decoder) : Int × Decoder :=
  let r := d.readByte
  (toSigned 8 r.1, r.2)

/-- Model of `readInt16`: two big-endian bytes via `readFull`, zero on
failure. -/
def Decoder.readInt16 (d : Decoder) : Int × Decoder :=
  let r := d.readFull 2
  (if r.1 then toSigned 16 (toUnsigned r.2.1) else 0, r.2.2)

/-- Model of `readInt32`: four big-endian bytes via `readFull`, zero on
failure. -/
def Decoder.readInt32 (d : Decoder) : Int × Decoder :=
  let r := d.readFull 4
  (if r.1 then toSigned 32 (toUnsigned r.2.1) else 0, r.2.2)

/-- Model of `readInt64`: eight big-endian bytes via `readFull`, zero on
failure. -/
def Decoder.readInt64 (d : Decoder) : Int × Decoder :=
  let r := d.readFull 8
  (if r.1 then toSigned 64 (toUnsigned r.2.1) else 0, r.2.2)

/-- Model of `readString`:

```go
func (d *decoder) readString() string {
    if n := d.readInt16(); n < 0 {
        return ""
    } else {
        return bytesToString(d.read(int(n)))
    }
}
```

Strings are byte lists; `bytesToString` is the identity on them. -/
def Decoder.readString (d : Decoder) : List Nat × Decoder :=
  let r := d.readInt16
  if r.1 < 0 then ([], r.2)
  else r.2.read r.1.toNat

/-- Model of `readBytes`:

```go
func (d *decoder) readBytes() []byte {
    if n := d.readInt32(); n < 0 {
        return nil
    } else {
        return d.read(int(n))
    }
}
```

A `nil` slice is `none`; a present (possibly empty) slice is `some`. -/
def Decoder.readBytes (d : Decoder) : Option (List Nat) × Decoder :=
  let r := d.readInt32
  if r.1 < 0 then (none, r.2)
  else
    let r2 := r.2.read r.1.toNat
    (some r2.1, r2.2)

/-- Reinterpretation of the final zigzag step of `readVarInt`,

```go
return int64(x>>1) ^ -(int64(x) & 1)
```

with the `uint64` accumulator `x` as a `Nat`.  `int64(x) & 1` is the low
bit of `x` (unchanged by the signed reinterpretation), so it is written
as `x &&& 1` on `Nat`; the xor is `Int` bitwise xor on the
two's-complement view. -/
def zigzagDecode (x : Nat) : Int :=
  Int.xor (toSigned 64 (x >>> 1)) (-((x &&& 1 : Nat) : Int))

/-- The loop of `readVarInt`:

```go
for n > 0 {
    b := d.readByte()
    if (b & 0x80) == 0 {
        x |= uint64(b) << s
        return int64(x>>1) ^ -(int64(x) & 1)
    }
    x |= uint64(b&0x7f) << s
    s += 7
    n--
}
d.setError(fmt.Errorf("cannot decode varint from input stream"))
return 0
```

Go's `uint64` shift produces the value modulo `2^64` (shifts of 64 or
more yield 0 for a byte operand, matching `% 2 ^ 64`). -/
def readVarIntLoop (d : Decoder) (n x s : Nat) : Int × Decoder :=
  match n with
  | 0 => (0, d.setError (some .badVarint))
  | Nat.succ n' =>
    let r := d.readByte
    let b := r.1
    if b &&& 0x80 = 0 then
      (zigzagDecode (x ||| ((b <<< s) % 2 ^ 64)), r.2)
    else
      readVarIntLoop r.2 n' (x ||| (((b &&& 0x7f) <<< s) % 2 ^ 64)) (s + 7)

/-- Model of `readVarInt`: clamp the 11-byte varint budget to `remain`,
then run the loop. -/
def Decoder.readVarInt (d : Decoder) : Int × Decoder :=
  readVarIntLoop d (min 11 d.remain) 0 0

/-- Model of `readCompactString`: like `readString` but with a zigzag
varint length. -/
def Decoder.readCompactString (d : Decoder) : List Nat × Decoder :=
  let r := d.readVarInt
  if r.1 < 0 then ([], r.2)
  else r.2.read r.1.toNat

/-- Model of `readCompactBytes`: like `readBytes` but with a zigzag
varint length. -/
def Decoder.readCompactBytes (d : Decoder) : Option (List Nat) × Decoder :=
  let r := d.readVarInt
  if r.1 < 0 then (none, r.2)
  else
    let r2 := r.2.read r.1.toNat
    (some r2.1, r2.2)

/-- Modelled from the spec: the `structTag` metadata attached to each
field descriptor — an applicable version interval `[MinVersion,
MaxVersion]` plus an encoding hint (`compact`: varint length form vs.
fixed-width length form).  The tag type itself lives outside `decode.go`;
the spec describes it as "(minVersion, maxVersion, encoding-hint) tag
intervals". -/
structure structTag where
  MinVersion : Int
  MaxVersion : Int
  compact : Bool
deriving DecidableEq, Repr

mutual

/-- A Go type as seen by `decodeFuncOf`: whether `reflect.PtrTo(typ)`
implements `io.ReaderFrom` (the self-decoding capability), plus the
type's kind. -/
inductive GoType where
  | mk (readerFrom : Bool) (kind : GoKind)

/-- The kinds `decodeFuncOf` dispatches on.  `kBytes` is the
`reflect.Slice`-of-`Uint8` case (`[]byte`); `kSlice` is every other
slice. -/
inductive GoKind where
  | kBool
  | kInt8
  | kInt16
  | kInt32
  | kInt64
  | kString
  | kBytes
  | kSlice (elem : GoType)
  | kStruct (fields : FieldList)

/-- The ordered field descriptors of a struct type, as enumerated by
`forEachStructField`: each field has a type and its declared tag
intervals (the parsed form of the Go struct tag string that
`forEachStructTag` iterates over). -/
inductive FieldList where
  | nil
  | cons (typ : GoType) (tags : List structTag) (rest : FieldList)

end

/-- Decoded destination values, the mutable record instance written
through the `value` write-handle.  `vBytes none` models a `nil` byte
slice, `vBytes (some bs)` a present slice. -/
inductive Value where
  | vBool (b : Bool)
  | vInt8 (i : Int)
  | vInt16 (i : Int)
  | vInt32 (i : Int)
  | vInt64 (i : Int)
  | vString (s : List Nat)
  | vBytes (b : Option (List Nat))
  | vArray (elems : List Value)
  | vStruct (fields : List Value)

mutual

/-- The decode operations a compiled plan is made of: the first-class
`decodeFunc` values of `decode.go`, reified so that distinct functions
can be compared.  `dArray` carries the zero value used by `makeArray`
for the element type, and the element operation; `dStruct` carries the
compiled field plan; `dReader` is the self-decoding escape hatch. -/
inductive DecodeOp where
  | dBool
  | dInt8
  | dInt16
  | dInt32
  | dInt64
  | dString
  | dCompactString
  | dBytes
  | dCompactBytes
  | dArray (dflt : Value) (elemOp : DecodeOp)
  | dStruct (plan : Plan)
  | dReader

/-- A compiled decode plan: the ordered `fields` slice built by
`structDecodeFuncOf`, each entry an index into the destination struct
plus the field's decode operation. -/
inductive Plan where
  | nil
  | cons (idx : Nat) (op : DecodeOp) (rest : Plan)

end

/-- The zero value `reflect.New`/`makeArray` produce for each Go type:
`false`, `0`, `""`, `nil` slices, and a struct of zero-valued fields. -/
def GoType.zeroValue : GoType → Value
  | .mk _ k =>
    match k with
    | .kBool => .vBool false
    | .kInt8 => .vInt8 0
    | .kInt16 => .vInt16 0
    | .kInt32 => .vInt32 0
    | .kInt64 => .vInt64 0
    | .kString => .vString []
    | .kBytes => .vBytes none
    | .kSlice _ => .vArray []
    | .kStruct fs => .vStruct (zeroFields fs)
where
  /-- Zero values of a field list, in order. -/
  zeroFields : FieldList → List Value
  | .nil => []
  | .cons t _ rest => t.zeroValue :: zeroFields rest

/-- The early-exit iteration of `forEachStructTag` inside
`structDecodeFuncOf`: the callback returns `false` (stop) on the first
tag whose `[MinVersion, MaxVersion]` interval contains `version`, and
`true` (keep going) otherwise — so the first matching interval wins. -/
def firstMatch (version : Int) : List structTag → Option structTag
  | [] => none
  | t :: ts =>
    if t.MinVersion ≤ version ∧ version ≤ t.MaxVersion then some t
    else firstMatch version ts

/-- Model of `stringDecodeFuncOf`:

```go
func stringDecodeFuncOf(tag structTag) decodeFunc {
    return (*decoder).decodeString
}
```

The tag (and its encoding hint) is ignored. -/
def stringDecodeFuncOf (_tag : structTag) : DecodeOp :=
  .dString

/-- Model of `bytesDecodeFuncOf`:

```go
func bytesDecodeFuncOf(tag structTag) decodeFunc {
    return (*decoder).decodeBytes
}
```

The tag (and its encoding hint) is ignored. -/
def bytesDecodeFuncOf (_tag : structTag) : DecodeOp :=
  .dBytes

/-- Model of `readerDecodeFuncOf`: the escape-hatch operation for types
whose pointer implements `io.ReaderFrom`. -/
def readerDecodeFuncOf : DecodeOp :=
  .dReader

mutual

/-- Model of `decodeFuncOf`:

```go
func decodeFuncOf(typ reflect.Type, version int16, tag structTag) decodeFunc {
    if reflect.PtrTo(typ).Implements(readerFrom) {
        return readerDecodeFuncOf(typ)
    }
    switch typ.Kind() {
    case reflect.Bool:   return (*decoder).decodeBool
    case reflect.Int8:   return (*decoder).decodeInt8
    case reflect.Int16:  return (*decoder).decodeInt16
    case reflect.Int32:  return (*decoder).decodeInt32
    case reflect.Int64:  return (*decoder).decodeInt64
    case reflect.String: return stringDecodeFuncOf(tag)
    case reflect.Struct: return structDecodeFuncOf(typ, version)
    case reflect.Slice:
        if typ.Elem().Kind() == reflect.Uint8 { return bytesDecodeFuncOf(tag) }
        return arrayDecodeFuncOf(typ, version, tag)
    default: panic(...)
    }
}
```

The `panic` default is unreachable because `GoKind` only has the
supported kinds. -/
def decodeFuncOf : GoType → Int → structTag → DecodeOp
  | .mk rf k, version, tag =>
    if rf then readerDecodeFuncOf
    else
      match k with
      | .kBool => .dBool
      | .kInt8 => .dInt8
      | .kInt16 => .dInt16
      | .kInt32 => .dInt32
      | .kInt64 => .dInt64
      | .kString => stringDecodeFuncOf tag
      | .kStruct fs => structDecodeFuncOf fs version
      | .kBytes => bytesDecodeFuncOf tag
      | .kSlice elem => arrayDecodeFuncOf elem version tag

/-- Model of the plan-building loop of `structDecodeFuncOf`:

```go
var fields []field
forEachStructField(typ, func(typ reflect.Type, index index, tag string) {
    forEachStructTag(tag, func(tag structTag) bool {
        if tag.MinVersion <= version && version <= tag.MaxVersion {
            fields = append(fields, field{decode: decodeFuncOf(typ, version, tag), index: index})
            return false
        }
        return true
    })
})
```

`i` is the index of the current field (the write-handle path used by
`v.fieldByIndex`). -/
def mkPlan (version : Int) : FieldList → Nat → Plan
  | .nil, _ => .nil
  | .cons typ tags rest, i =>
    match firstMatch version tags with
    | some t => .cons i (decodeFuncOf typ version t) (mkPlan version rest (i + 1))
    | none => mkPlan version rest (i + 1)

/-- Model of `structDecodeFuncOf`: the compiled plan, executed field by
field by the returned closure. -/
def structDecodeFuncOf (fs : FieldList) (version : Int) : DecodeOp :=
  .dStruct (mkPlan version fs 0)

/-- Model of `arrayDecodeFuncOf`:

```go
func arrayDecodeFuncOf(typ reflect.Type, version int16, tag structTag) decodeFunc {
    elemType := typ.Elem()
    elemFunc := decodeFuncOf(elemType, version, tag)
    return func(d *decoder, v value) { d.decodeArray(v, elemType, elemFunc) }
}
``` -/
def arrayDecodeFuncOf (elem : GoType) (version : Int) (tag : structTag) : DecodeOp :=
  .dArray elem.zeroValue (decodeFuncOf elem version tag)

end

/-- Model of `value.fieldByIndex` as a read: the `i`-th field of a struct
value (used to seed the element's decode; non-struct values are returned
unchanged, a case the compiled plans never exercise). -/
def Value.fieldAt : Value → Nat → Value
  | .vStruct fs, i => fs.getD i (.vBool false)
  | v, _ => v

/-- Writing through the `value.fieldByIndex` handle: replace the `i`-th
field of a struct value. -/
def Value.setFieldAt : Value → Nat → Value → Value
  | .vStruct fs, i, x => .vStruct (fs.set i x)
  | v, _, _ => v

/-- The self-decode behavior of an `io.ReaderFrom` record type: given the
raw underlying byte stream it consumes some number of bytes and returns
an error (or none).  It is external code, so the interpreter is
parameterized by it. -/
def SelfDec : Type := List Nat → Nat × Option Err

mutual

/-- The interpreter for compiled decode operations: applying a
`decodeFunc` to `(d, v)`.  Each case is the corresponding
`(*decoder).decodeXxx` method writing through the `value` handle:

```go
func (d *decoder) decodeBool(v value)   { v.setBool(d.readBool()) }
...
func (d *decoder) decodeArray(v value, elemType reflect.Type, decodeElem decodeFunc) {
    if n := d.readInt32(); n < 0 {
        v.setArray(array{})
    } else {
        a := makeArray(elemType, int(n))
        for i := 0; i < int(n) && d.remain > 0; i++ {
            decodeElem(d, a.index(i))
        }
        v.setArray(a)
    }
}

func readerDecodeFuncOf(typ reflect.Type) decodeFunc {
    typ = reflect.PtrTo(typ)
    return func(d *decoder, v value) {
        if d.err == nil {
            _, d.err = v.iface(typ).(io.ReaderFrom).ReadFrom(d.reader)
        }
    }
}
```

Note that the `dReader` case assigns the returned error directly to
`d.err` (it does not call `setError`), and hands the self-decoder the
*raw* reader — bytes it consumes are not charged against `remain`. -/
def runOp (rf : SelfDec) : DecodeOp → Decoder → Value → Value × Decoder
  | .dBool, d, _ => let r := d.readBool; (.vBool r.1, r.2)
  | .dInt8, d, _ => let r := d.readInt8; (.vInt8 r.1, r.2)
  | .dInt16, d, _ => let r := d.readInt16; (.vInt16 r.1, r.2)
  | .dInt32, d, _ => let r := d.readInt32; (.vInt32 r.1, r.2)
  | .dInt64, d, _ => let r := d.readInt64; (.vInt64 r.1, r.2)
  | .dString, d, _ => let r := d.readString; (.vString r.1, r.2)
  | .dCompactString, d, _ => let r := d.readCompactString; (.vString r.1, r.2)
  | .dBytes, d, _ => let r := d.readBytes; (.vBytes r.1, r.2)
  | .dCompactBytes, d, _ => let r := d.readCompactBytes; (.vBytes r.1, r.2)
  | .dArray dflt elemOp, d, _ =>
    let r := d.readInt32
    if r.1 < 0 then (.vArray [], r.2)
    else runArray rf elemOp (List.replicate r.1.toNat dflt) 0 r.1.toNat r.2
  | .dStruct p, d, v => runPlan rf p d v
  | .dReader, d, v =>
    if d.err = none then
      let r := rf d.src
      (v, { d with src := d.src.drop r.1, err := r.2 })
    else (v, d)
termination_by op _ _ => (sizeOf op, 0)
decreasing_by
  all_goals simp_wf
  all_goals first
  | (apply Prod.Lex.left; omega)
  | (apply Prod.Lex.right; omega)

/-- The element loop of `decodeArray`: decode elements in index order
while `i < n && d.remain > 0`, writing each through `a.index(i)`. -/
def runArray (rf : SelfDec) (elemOp : DecodeOp) (a : List Value) (i n : Nat)
    (d : Decoder) : Value × Decoder :=
  if i < n ∧ 0 < d.remain then
    let r := runOp rf elemOp d (a.getD i (.vBool false))
    runArray rf elemOp (a.set i r.1) (i + 1) n r.2
  else (.vArray a, d)
termination_by (sizeOf elemOp, n + 1 - i)
decreasing_by
  all_goals simp_wf
  all_goals first
  | (apply Prod.Lex.left; omega)
  | (apply Prod.Lex.right; omega)

/-- The closure returned by `structDecodeFuncOf`:

```go
return func(d *decoder, v value) {
    for i := range fields {
        f := &fields[i]
        f.decode(d, v.fieldByIndex(f.index))
    }
}
``` -/
def runPlan (rf : SelfDec) : Plan → Decoder → Value → Value × Decoder
  | .nil, d, v => (v, d)
  | .cons i op rest, d, v =>
    let r := runOp rf op d (v.fieldAt i)
    runPlan rf rest r.2 (v.setFieldAt i r.1)
termination_by p _ _ => (sizeOf p, 0)
decreasing_by
  all_goals simp_wf
  all_goals first
  | (apply Prod.Lex.left; omega)
  | (apply Prod.Lex.right; omega)

end

/-- Modelled from the spec: the top-level decode call, which lives above
`decode.go` in the repository ("caller requests decode of type T,
version v, from source S with frame length L" — §2 data flow).  Per the
spec: the Bounded Frame Reader is initialized with budget `L`, the plan
executes, and "on success or first failure, any leftover budget is
drained" before the sticky error is returned. -/
def decodeCall (rf : SelfDec) (op : DecodeOp) (d : Decoder) (v : Value) :
    Value × Decoder :=
  let r := runOp rf op d v
  (r.1, r.2.discardAll)

mutual

/-- True when an operation contains no self-decoding (`dReader`) escape
hatch — the only operation that touches the raw reader behind the
budget's back. -/
def readerFree : DecodeOp → Bool
  | .dArray _ e => readerFree e
  | .dStruct p => planReaderFree p
  | .dReader => false
  | _ => true

/-- All operations of a plan are `readerFree`. -/
def planReaderFree : Plan → Bool
  | .nil => true
  | .cons _ op rest => readerFree op && planReaderFree rest

end

/-- Modelled from the spec: the writer-side unsigned varint emitter (the
encoder is out of scope of `decode.go`; §4.3 describes the wire form as
"up to 11 continuation-flagged bytes, top bit = more bytes follow, low 7
bits = payload, little-endian group order"). -/
def encodeUVarint (u : Nat) : List Nat :=
  if u < 128 then [u]
  else (u % 128 + 128) :: encodeUVarint (u / 128)
termination_by u
decreasing_by
  exact Nat.div_lt_self (by omega) (by omega)

/-- Modelled from the spec: "the standard zigzag ... mapping
small-magnitude signed integers to compact encodings" (§4.3):
`0, -1, 1, -2, 2, …` map to `0, 1, 2, 3, 4, …`. -/
def zigzagEncode (v : Int) : Nat :=
  if 0 ≤ v then 2 * v.toNat else 2 * (-(v + 1)).toNat + 1

/-- Modelled from the spec: the full signed-varint encoder — zigzag then
7-bit groups. -/
def encodeVarInt (v : Int) : List Nat :=
  encodeUVarint (zigzagEncode v)

/-! ## Characterization of the bounded reads -/

/-- With a sticky error set, `Read` returns the error and moves nothing. -/
theorem Read_err_eq (d : Decoder) (n : Nat) (e : Err) (h : d.err = some e) :
    d.Read n = ([], some e, d) := by
  unfold Decoder.Read
  rw [h]

/-- With no sticky error but an exhausted budget or source, `Read`
reports `io.EOF` and moves nothing. -/
theorem Read_eof_eq (d : Decoder) (n : Nat) (h : d.err = none)
    (h2 : d.remain = 0 ∨ d.src = []) : d.Read n = ([], some .eof, d) := by
  unfold Decoder.Read
  rw [h]
  rcases h2 with h2 | h2
  · simp [h2]
  · rw [h2]
    by_cases hr : d.remain = 0
    · simp [hr]
    · simp [hr]

/-- The successful case of `Read`: a positive budget and a non-empty
source yield `min (min n remain) srcLen` bytes off the front. -/
theorem Read_ok_eq (d : Decoder) (n : Nat) (h : d.err = none)
    (h2 : d.remain ≠ 0) (h3 : d.src ≠ []) :
    d.Read n = (d.src.take (min n d.remain), none,
      { d with src := d.src.drop (min n d.remain),
               remain := d.remain - min (min n d.remain) d.src.length }) := by
  unfold Decoder.Read
  rw [h]
  simp only [h2, if_false]
  match hsrc : d.src with
  | [] => exact absurd hsrc h3
  | b :: bs =>
    simp [← hsrc]

/-- Complete characterization of `readFullLoop` on an error-free state:
it transfers `k = min need (min remain srcLen)` bytes and reports
`io.EOF` exactly when that is short of `need`. -/
theorem readFullLoop_spec (need : Nat) (d : Decoder) (h : d.err = none) :
    readFullLoop d need =
      (d.src.take (min need (min d.remain d.src.length)),
       if min need (min d.remain d.src.length) = need then none else some Err.eof,
       { d with src := d.src.drop (min need (min d.remain d.src.length)),
                remain := d.remain - min need (min d.remain d.src.length) }) := by
  induction need using Nat.strong_induction_on generalizing d with
  | _ need ih =>
    by_cases h0 : need = 0
    · subst h0
      rw [readFullLoop]
      simp
    · rw [readFullLoop]
      rw [dif_neg h0]
      by_cases hre : d.remain = 0
      · rw [Read_eof_eq d need h (Or.inl hre)]
        have hk0 : min need (min d.remain d.src.length) = 0 := by omega
        rw [hk0, if_neg (show ¬ (0 = need) by omega)]
        rfl
      · by_cases hsrc : d.src = []
        · rw [Read_eof_eq d need h (Or.inr hsrc)]
          have hk0 : min need (min d.remain d.src.length) = 0 := by
            rw [hsrc]
            simp
          rw [hk0, if_neg (show ¬ (0 = need) by omega)]
          rfl
        · rw [Read_ok_eq d need h hre hsrc]
          have hslen : d.src.length ≠ 0 := by simpa using hsrc
          simp only [List.length_take]
          set k1 := min (min need d.remain) d.src.length with hk1
          have hassoc : min need (min d.remain d.src.length) = k1 := by omega
          rw [hassoc]
          rw [dif_neg (show ¬ k1 = 0 by omega)]
          have hdrop2 : d.src.drop (min need d.remain) = d.src.drop k1 := by
            rcases le_or_lt (min need d.remain) d.src.length with hc | hc
            · have he : k1 = min need d.remain := by omega
              rw [he]
            · rw [List.drop_eq_nil_of_le (by omega),
                List.drop_eq_nil_of_le (by omega)]
          have htake2 : d.src.take (min need d.remain) = d.src.take k1 := by
            rcases le_or_lt (min need d.remain) d.src.length with hc | hc
            · have he : k1 = min need d.remain := by omega
              rw [he]
            · rw [List.take_of_length_le (by omega), List.take_of_length_le (by omega)]
          by_cases hfull : k1 = need
          · have hz : need - k1 = 0 := by omega
            rw [hz, readFullLoop]
            simp only [↓reduceDIte, List.append_nil]
            rw [if_pos hfull, htake2, hdrop2]
          · have hrec := ih (need - k1) (by omega)
              { d with src := d.src.drop (min need d.remain), remain := d.remain - k1 }
              h
            simp only [List.length_drop] at hrec
            have hk2 : min (need - k1) (min (d.remain - k1) (d.src.length - min need d.remain)) = 0 := by
              omega
            rw [hk2] at hrec
            rw [if_neg (show ¬ (0 = need - k1) by omega)] at hrec
            simp only [List.take_zero, List.drop_zero, Nat.sub_zero] at hrec
            rw [hrec]
            rw [if_neg hfull, htake2, hdrop2]
            simp

/-- Abbreviation for the number of bytes a bounded read of `need` bytes
can transfer: `min need (min remain srcLen)`. -/
def xfer (d : Decoder) (need : Nat) : Nat :=
  min need (min d.remain d.src.length)

/-- Characterization of `ReadFull` on an error-free state: `k = xfer d
need` bytes are transferred; a complete read reports no error, an
incomplete one reports `io.ErrUnexpectedEOF` if something was read and
`io.EOF` otherwise. -/
theorem ReadFull_spec (d : Decoder) (need : Nat) (h : d.err = none) :
    ReadFull d need =
      (d.src.take (xfer d need),
       if xfer d need = need then none
       else if 0 < xfer d need then some Err.ueof else some Err.eof,
       { d with src := d.src.drop (xfer d need),
                remain := d.remain - xfer d need }) := by
  unfold ReadFull xfer
  rw [readFullLoop_spec need d h]
  have hlen : (d.src.take (min need (min d.remain d.src.length))).length
      = min need (min d.remain d.src.length) := by
    simp only [List.length_take]
    omega
  simp only [hlen]
  by_cases hfull : min need (min d.remain d.src.length) = need
  · have hle : need ≤ min need (min d.remain d.src.length) := by omega
    simp only [if_pos hle, if_pos hfull]
  · have hle : ¬ need ≤ min need (min d.remain d.src.length) := by omega
    simp only [if_neg hle, if_neg hfull]
    by_cases hz : 0 < min need (min d.remain d.src.length)
    · simp [hz]
    · simp [hz]

/-- With a sticky error, `ReadFull` on a positive request returns the
error and moves nothing (`io.ReadAtLeast` stops on the first `Read`). -/
theorem ReadFull_err (d : Decoder) (need : Nat) (e : Err) (h : d.err = some e)
    (hn : need ≠ 0) : ReadFull d need = ([], some e, d) := by
  have hloop : readFullLoop d need = ([], some e, d) := by
    rw [readFullLoop, dif_neg hn, Read_err_eq d need e h]
  unfold ReadFull
  rw [hloop]
  simp only [List.length_nil]
  have h1 : ¬ need ≤ 0 := by omega
  have h2 : ¬ ((0 : Nat) < 0 ∧ (some e = some Err.eof)) := by simp
  rw [if_neg h1, if_neg h2]

/-- With a sticky error, a zero-byte `ReadFull` succeeds vacuously and
moves nothing. -/
theorem ReadFull_zero (d : Decoder) : ReadFull d 0 = ([], none, d) := by
  unfold ReadFull
  rw [readFullLoop]
  simp

/-! ## The sticky error short-circuits every read -/

/-- Recording `nil` is a no-op. -/
theorem setError_none (d : Decoder) : d.setError none = d := by
  unfold Decoder.setError
  cases d.err <;> rfl

/-- Recording anything on top of an existing sticky error is a no-op. -/
theorem setError_of_err_set (d : Decoder) (e : Err) (h : d.err = some e)
    (e' : Option Err) : d.setError e' = d := by
  unfold Decoder.setError
  rw [h]

/-- Recording a fresh error stores it and applies the post-error drain. -/
theorem setError_some_of_none (d : Decoder) (e : Err) (h : d.err = none) :
    d.setError (some e) = discardAllPost { d with err := some e } := by
  unfold Decoder.setError
  rw [h]

/-- With a sticky error, `readFull` fails (for a positive request),
returns nothing and moves nothing. -/
theorem readFull_err (d : Decoder) (n : Nat) (e : Err) (h : d.err = some e)
    (hn : n ≠ 0) : d.readFull n = (false, [], d) := by
  unfold Decoder.readFull
  rw [ReadFull_err d n e h hn]
  simp only [List.length_nil]
  rw [setError_of_err_set d e h]
  simp [Ne.symm hn]

/-- With a sticky error, `read` returns nothing and moves nothing. -/
theorem read_err (d : Decoder) (n : Nat) (e : Err) (h : d.err = some e) :
    d.read n = ([], d) := by
  unfold Decoder.read
  by_cases hn : n = 0
  · subst hn
    rw [ReadFull_zero]
    simp [setError_none]
  · rw [ReadFull_err d n e h hn]
    simp only []
    rw [setError_of_err_set d e h]

/-- With a sticky error, `readByte` yields `0` and moves nothing. -/
theorem readByte_err (d : Decoder) (e : Err) (h : d.err = some e) :
    d.readByte = (0, d) := by
  unfold Decoder.readByte
  rw [readFull_err d 1 e h (by omega)]
  simp

/-- With a sticky error, `readBool` yields `false` and moves nothing. -/
theorem readBool_err (d : Decoder) (e : Err) (h : d.err = some e) :
    d.readBool = (false, d) := by
  unfold Decoder.readBool
  rw [readByte_err d e h]
  simp

/-- With a sticky error, `readInt8` yields `0` and moves nothing. -/
theorem readInt8_err (d : Decoder) (e : Err) (h : d.err = some e) :
    d.readInt8 = (0, d) := by
  unfold Decoder.readInt8
  rw [readByte_err d e h]
  simp [toSigned]

/-- With a sticky error, `readInt16` yields `0` and moves nothing. -/
theorem readInt16_err (d : Decoder) (e : Err) (h : d.err = some e) :
    d.readInt16 = (0, d) := by
  unfold Decoder.readInt16
  rw [readFull_err d 2 e h (by omega)]
  simp

/-- With a sticky error, `readInt32` yields `0` and moves nothing. -/
theorem readInt32_err (d : Decoder) (e : Err) (h : d.err = some e) :
    d.readInt32 = (0, d) := by
  unfold Decoder.readInt32
  rw [readFull_err d 4 e h (by omega)]
  simp

/-- With a sticky error, `readInt64` yields `0` and moves nothing. -/
theorem readInt64_err (d : Decoder) (e : Err) (h : d.err = some e) :
    d.readInt64 = (0, d) := by
  unfold Decoder.readInt64
  rw [readFull_err d 8 e h (by omega)]
  simp

/-- With a sticky error, `readString` yields the empty string and moves
nothing (the zero length prefix routes through a zero-byte `read`). -/
theorem readString_err (d : Decoder) (e : Err) (h : d.err = some e) :
    d.readString = ([], d) := by
  unfold Decoder.readString
  rw [readInt16_err d e h]
  simp only []
  rw [if_neg (by omega)]
  simp only [Int.toNat_zero]
  exact read_err d 0 e h

/-- With a sticky error, `readBytes` yields a present-but-empty slice
(`int32(0)` is not negative, so the `nil` branch is not taken) and moves
nothing. -/
theorem readBytes_err (d : Decoder) (e : Err) (h : d.err = some e) :
    d.readBytes = (some [], d) := by
  unfold Decoder.readBytes
  rw [readInt32_err d e h]
  simp only []
  rw [if_neg (by omega)]
  simp only [Int.toNat_zero]
  rw [read_err d 0 e h]

/-- With a sticky error, `readVarInt` yields `0` and moves nothing: each
`readByte` returns `0`, whose clear top bit terminates the loop at once
(or the clamped byte budget is already `0` and the `setError` is a
no-op). -/
theorem readVarInt_err (d : Decoder) (e : Err) (h : d.err = some e) :
    d.readVarInt = (0, d) := by
  unfold Decoder.readVarInt
  cases hmin : min 11 d.remain with
  | zero =>
    unfold readVarIntLoop
    rw [setError_of_err_set d e h]
  | succ n =>
    unfold readVarIntLoop
    rw [readByte_err d e h]
    norm_num
    decide

mutual

/-- With a sticky error, every compiled decode operation leaves the
decoder state untouched. -/
theorem runOp_err (rf : SelfDec) (op : DecodeOp) (d : Decoder) (v : Value) (e : Err)
    (h : d.err = some e) : (runOp rf op d v).2 = d := by
  cases op with
  | dBool => simp only [runOp]; rw [readBool_err d e h]
  | dInt8 => simp only [runOp]; rw [readInt8_err d e h]
  | dInt16 => simp only [runOp]; rw [readInt16_err d e h]
  | dInt32 => simp only [runOp]; rw [readInt32_err d e h]
  | dInt64 => simp only [runOp]; rw [readInt64_err d e h]
  | dString => simp only [runOp]; rw [readString_err d e h]
  | dCompactString =>
    simp only [runOp]
    unfold Decoder.readCompactString
    rw [readVarInt_err d e h]
    simp only []
    rw [if_neg (by omega), Int.toNat_zero, read_err d 0 e h]
  | dBytes => simp only [runOp]; rw [readBytes_err d e h]
  | dCompactBytes =>
    simp only [runOp]
    unfold Decoder.readCompactBytes
    rw [readVarInt_err d e h]
    simp only []
    rw [if_neg (by omega), Int.toNat_zero, read_err d 0 e h]
  | dArray dflt elemOp =>
    simp only [runOp]
    rw [readInt32_err d e h]
    simp only []
    rw [if_neg (by omega)]
    exact runArray_err rf elemOp _ 0 _ d e h
  | dStruct p => simp only [runOp]; exact runPlan_err rf p d v e h
  | dReader =>
    simp only [runOp]
    rw [if_neg (by rw [h]; simp)]
termination_by (sizeOf op, 0)
decreasing_by
  all_goals simp_wf
  all_goals first
  | (apply Prod.Lex.left; omega)
  | (apply Prod.Lex.right; omega)

/-- With a sticky error, the array element loop leaves the decoder state
untouched. -/
theorem runArray_err (rf : SelfDec) (elemOp : DecodeOp) (a : List Value) (i n : Nat)
    (d : Decoder) (e : Err) (h : d.err = some e) :
    (runArray rf elemOp a i n d).2 = d := by
  rw [runArray]
  by_cases hc : i < n ∧ 0 < d.remain
  · rw [if_pos hc]
    have h1 : (runOp rf elemOp d (a.getD i (.vBool false))).2 = d :=
      runOp_err rf elemOp d _ e h
    have h2 := runArray_err rf elemOp
      (a.set i (runOp rf elemOp d (a.getD i (.vBool false))).1) (i + 1) n
      (runOp rf elemOp d (a.getD i (.vBool false))).2 e (by rw [h1]; exact h)
    rw [h2, h1]
  · rw [if_neg hc]
termination_by (sizeOf elemOp, n + 1 - i)
decreasing_by
  all_goals simp_wf
  all_goals first
  | (apply Prod.Lex.left; omega)
  | (apply Prod.Lex.right; omega)

/-- With a sticky error, a struct plan leaves the decoder state
untouched. -/
theorem runPlan_err (rf : SelfDec) (p : Plan) (d : Decoder) (v : Value) (e : Err)
    (h : d.err = some e) : (runPlan rf p d v).2 = d := by
  cases p with
  | nil => rw [runPlan]
  | cons i op rest =>
    rw [runPlan]
    have h1 : (runOp rf op d (v.fieldAt i)).2 = d := runOp_err rf op d _ e h
    have h2 := runPlan_err rf rest (runOp rf op d (v.fieldAt i)).2
      (v.setFieldAt i (runOp rf op d (v.fieldAt i)).1) e (by rw [h1]; exact h)
    rw [h2, h1]
termination_by (sizeOf p, 0)
decreasing_by
  all_goals simp_wf
  all_goals first
  | (apply Prod.Lex.left; omega)
  | (apply Prod.Lex.right; omega)

end

/-! ## Success and failure shapes of the primitive reads -/

/-- A complete `readFull`: transfers exactly `need` bytes, no error. -/
theorem readFull_ok (d : Decoder) (need : Nat) (h : d.err = none)
    (hk : xfer d need = need) :
    d.readFull need = (true, d.src.take need,
      { d with src := d.src.drop need, remain := d.remain - need }) := by
  unfold Decoder.readFull
  rw [ReadFull_spec d need h, if_pos hk]
  simp only [hk, setError_none]
  rw [List.length_take]
  have h1 : min need d.src.length = need := by
    unfold xfer at hk
    omega
  simp [h1]

/-- An incomplete `readFull`: transfers what it can, records the
truncation error (which triggers the post-error drain), and returns
`false`. -/
theorem readFull_fail (d : Decoder) (need : Nat) (h : d.err = none)
    (hk : xfer d need ≠ need) :
    d.readFull need = (false, d.src.take (xfer d need),
      discardAllPost { d with src := d.src.drop (xfer d need),
                              remain := d.remain - xfer d need,
                              err := some (if 0 < xfer d need then Err.ueof
                                           else Err.eof) }) := by
  unfold Decoder.readFull
  rw [ReadFull_spec d need h]
  simp only [if_neg hk]
  have hlen : (d.src.take (xfer d need)).length = xfer d need := by
    rw [List.length_take]
    unfold xfer
    omega
  rw [hlen]
  have herr : ({ d with src := d.src.drop (xfer d need),
                        remain := d.remain - xfer d need } : Decoder).err = none := h
  by_cases hz : 0 < xfer d need
  · simp only [if_pos hz]
    rw [setError_some_of_none _ _ herr]
    simp [hk]
  · simp only [if_neg hz]
    rw [setError_some_of_none _ _ herr]
    simp [hk]

/-- A complete `read`: returns exactly the requested bytes. -/
theorem read_ok (d : Decoder) (need : Nat) (h : d.err = none)
    (hk : xfer d need = need) :
    d.read need = (d.src.take need,
      { d with src := d.src.drop need, remain := d.remain - need }) := by
  unfold Decoder.read
  rw [ReadFull_spec d need h, if_pos hk]
  simp only [hk, setError_none]

/-- An incomplete `read`: returns the bytes that were available and
records the truncation error (with its post-error drain). -/
theorem read_fail (d : Decoder) (need : Nat) (h : d.err = none)
    (hk : xfer d need ≠ need) :
    d.read need = (d.src.take (xfer d need),
      discardAllPost { d with src := d.src.drop (xfer d need),
                              remain := d.remain - xfer d need,
                              err := some (if 0 < xfer d need then Err.ueof
                                           else Err.eof) }) := by
  unfold Decoder.read
  rw [ReadFull_spec d need h]
  simp only [if_neg hk]
  have herr : ({ d with src := d.src.drop (xfer d need),
                        remain := d.remain - xfer d need } : Decoder).err = none := h
  by_cases hz : 0 < xfer d need
  · simp only [if_pos hz]
    rw [setError_some_of_none _ _ herr]
  · simp only [if_neg hz]
    rw [setError_some_of_none _ _ herr]

/-! ## Discard behavior -/

/-- On an error-free state, the `io.Copy`-to-nowhere loop drains
`min remain srcLen` bytes — everything the frame still allows, however
many were asked for — and reports no error (`io.EOF` is a clean end). -/
theorem copyDiscard_spec (d : Decoder) (h : d.err = none) :
    copyDiscard d = (none,
      { d with src := d.src.drop (min d.remain d.src.length),
               remain := d.remain - min d.remain d.src.length }) := by
  generalize hm : d.src.length = len
  induction len using Nat.strong_induction_on generalizing d with
  | _ len ih =>
    by_cases hre : d.remain = 0
    · rw [copyDiscard, Read_eof_eq d 32768 h (Or.inl hre)]
      have h0 : min d.remain len = 0 := by omega
      rw [h0]
      rfl
    · by_cases hsrc : d.src = []
      · rw [copyDiscard, Read_eof_eq d 32768 h (Or.inr hsrc)]
        have h0 : min d.remain len = 0 := by
          rw [← hm, hsrc]
          simp
        rw [h0]
        rfl
      · rw [copyDiscard, Read_ok_eq d 32768 h hre hsrc]
        have hslen : d.src.length ≠ 0 := by simpa using hsrc
        have hlen : (d.src.take (min 32768 d.remain)).length
            = min (min 32768 d.remain) d.src.length := by
          simp [List.length_take]
        simp only []
        rw [dif_neg (by rw [hlen]; omega)]
        set k1 := min (min 32768 d.remain) d.src.length with hk1
        have hrec := ih ((d.src.drop (min 32768 d.remain)).length)
          (by simp only [List.length_drop]; omega)
          { d with src := d.src.drop (min 32768 d.remain), remain := d.remain - k1 }
          h rfl
        rw [hrec]
        dsimp only
        simp only [List.length_drop, Prod.mk.injEq, Decoder.mk.injEq, true_and,
          and_true]
        constructor
        · rw [List.drop_drop]
          rcases le_or_lt (min 32768 d.remain) d.src.length with hc | hc
          · congr 1
            omega
          · rw [List.drop_eq_nil_of_le (show d.src.length ≤
                32768 ⊓ d.remain + (d.remain - k1) ⊓ (d.src.length - 32768 ⊓ d.remain) by
                  omega),
              List.drop_eq_nil_of_le (show d.src.length ≤ d.remain ⊓ len by omega)]
        · omega

/-- With a sticky error, the `io.Copy` loop stops on its first read,
which returns the sticky error; `io.EOF` is laundered to "no error". -/
theorem copyDiscard_err (d : Decoder) (e : Err) (h : d.err = some e) :
    copyDiscard d = (if e = .eof then none else some e, d) := by
  rw [copyDiscard, Read_err_eq d 32768 e h]
  cases e <;> simp

/-- Behavior of `discard n` on an error-free state with a bulk-skip
(`discarder`) reader: skips `min (min n remain) srcLen` bytes, decrements
`remain` by exactly that amount, and records `io.EOF` when the source
ran out before the clamped request was satisfied. -/
theorem discard_spec_bulk (d : Decoder) (n : Nat) (h : d.err = none)
    (hb : d.bulk = true) :
    d.discard n =
      { d with src := d.src.drop (min (min n d.remain) d.src.length),
               remain := d.remain - min (min n d.remain) d.src.length,
               err := if min (min n d.remain) d.src.length < min n d.remain
                      then some Err.eof else none } := by
  unfold Decoder.discard
  rw [hb]
  simp only [if_true]
  have herr2 : ({ src := d.src.drop (min (min n d.remain) d.src.length), remain := d.remain - min (min n d.remain) d.src.length, err := d.err, bulk := true } : Decoder).err = none := h
  by_cases hshort : min (min n d.remain) d.src.length < min n d.remain
  · rw [if_pos hshort]
    rw [setError_some_of_none _ Err.eof herr2]
    unfold discardAllPost
    dsimp only
    have hnil : d.src.drop (min (min n d.remain) d.src.length) = [] :=
      List.drop_eq_nil_of_le (by omega)
    rw [hnil]
    simp
  · rw [if_neg hshort]
    rw [setError_none]
    rw [h]

/-- Behavior of `discard n` on an error-free state with a generic
reader: the fallback `io.Copy` loop ignores the clamped `n` and drains
`min remain srcLen` bytes — the whole remaining budget or source. -/
theorem discard_spec_fallback (d : Decoder) (n : Nat) (h : d.err = none)
    (hb : d.bulk = false) :
    d.discard n =
      { d with src := d.src.drop (min d.remain d.src.length),
               remain := d.remain - min d.remain d.src.length } := by
  unfold Decoder.discard
  rw [hb]
  simp only [if_false, Bool.false_eq_true]
  rw [copyDiscard_spec d h]
  dsimp only
  rw [setError_none, hb]

/-- With a sticky error and a bulk-skip reader, `discard` still skips
bytes from the raw source (the `Discard` capability bypasses `Read`'s
sticky-error check); the trailing `setError` is then a no-op. -/
theorem discard_err_bulk (d : Decoder) (n : Nat) (e : Err) (h : d.err = some e)
    (hb : d.bulk = true) :
    d.discard n =
      { d with src := d.src.drop (min (min n d.remain) d.src.length),
               remain := d.remain - min (min n d.remain) d.src.length } := by
  unfold Decoder.discard
  rw [hb]
  simp only [if_true]
  have herr2 : ({ src := d.src.drop (min (min n d.remain) d.src.length), remain := d.remain - min (min n d.remain) d.src.length, err := d.err, bulk := true } : Decoder).err = some e := h
  by_cases hshort : min (min n d.remain) d.src.length < min n d.remain
  · rw [if_pos hshort, setError_of_err_set _ e herr2]
  · rw [if_neg hshort, setError_of_err_set _ e herr2]

/-- With a sticky error and a generic reader, `discard` moves nothing at
all: the fallback loop reads through the sticky-error check. -/
theorem discard_err_fallback (d : Decoder) (n : Nat) (e : Err) (h : d.err = some e)
    (hb : d.bulk = false) : d.discard n = d := by
  unfold Decoder.discard
  rw [hb]
  simp only [if_false, Bool.false_eq_true]
  rw [copyDiscard_err d e h]
  by_cases he : e = Err.eof
  · rw [if_pos he]
    dsimp only
    rw [setError_none]
  · rw [if_neg he]
    dsimp only
    rw [setError_of_err_set d e h]

/-- Justification for `discardAllPost`: once the error is recorded,
`discardAll` is exactly the post-error drain, on either kind of
reader. -/
theorem discardAll_of_err_set (d : Decoder) (e : Err) (h : d.err = some e) :
    d.discardAll = discardAllPost d := by
  unfold Decoder.discardAll discardAllPost
  cases hb : d.bulk with
  | true =>
    rw [discard_err_bulk d d.remain e h hb]
    simp [Nat.min_self, hb]
  | false =>
    rw [discard_err_fallback d d.remain e h hb]
    simp [hb]

/-- Model-level restatement of `setError`'s source text: recording a
fresh error stores it and immediately calls `discardAll` on the updated
state. -/
theorem setError_eq_discardAll (d : Decoder) (e : Err) (h : d.err = none) :
    d.setError (some e) = Decoder.discardAll { d with err := some e } := by
  rw [setError_some_of_none d e h,
    discardAll_of_err_set { d with err := some e } e rfl]

/-! ## Fixed-width reads, success shapes -/

/-- A complete `readInt16` decodes two big-endian bytes. -/
theorem readInt16_ok (d : Decoder) (h : d.err = none) (hx : xfer d 2 = 2) :
    d.readInt16 = (toSigned 16 (toUnsigned (d.src.take 2)),
      { d with src := d.src.drop 2, remain := d.remain - 2 }) := by
  unfold Decoder.readInt16
  rw [readFull_ok d 2 h hx]
  rfl

/-- A complete `readInt32` decodes four big-endian bytes. -/
theorem readInt32_ok (d : Decoder) (h : d.err = none) (hx : xfer d 4 = 4) :
    d.readInt32 = (toSigned 32 (toUnsigned (d.src.take 4)),
      { d with src := d.src.drop 4, remain := d.remain - 4 }) := by
  unfold Decoder.readInt32
  rw [readFull_ok d 4 h hx]
  rfl

/-- A complete `readInt64` decodes eight big-endian bytes. -/
theorem readInt64_ok (d : Decoder) (h : d.err = none) (hx : xfer d 8 = 8) :
    d.readInt64 = (toSigned 64 (toUnsigned (d.src.take 8)),
      { d with src := d.src.drop 8, remain := d.remain - 8 }) := by
  unfold Decoder.readInt64
  rw [readFull_ok d 8 h hx]
  rfl

/-- A complete `readByte`. -/
theorem readByte_ok (d : Decoder) (h : d.err = none) (hx : xfer d 1 = 1) :
    d.readByte = (d.src.headD 0,
      { d with src := d.src.drop 1, remain := d.remain - 1 }) := by
  unfold Decoder.readByte
  rw [readFull_ok d 1 h hx]
  simp only [if_true]
  have h1 : 1 ≤ d.src.length := by
    unfold xfer at hx
    omega
  match hs : d.src with
  | [] => rw [hs] at h1; simp at h1
  | b :: bs => simp

/-- The post-error drain is the identity when the source is already
exhausted. -/
theorem discardAllPost_src_nil (X : Decoder) (h : X.src = []) :
    discardAllPost X = X := by
  unfold discardAllPost
  by_cases hb : X.bulk = true
  · rw [if_pos hb, h]
    simp only [List.length_nil, Nat.min_zero, List.drop_nil, Nat.sub_zero]
    rw [← h]
  · rw [if_neg hb]

/-- The post-error drain is the identity when the budget is already
exhausted. -/
theorem discardAllPost_remain_zero (X : Decoder) (h : X.remain = 0) :
    discardAllPost X = X := by
  unfold discardAllPost
  by_cases hb : X.bulk = true
  · rw [if_pos hb, h]
    simp only [Nat.zero_min, List.drop_zero, Nat.sub_zero]
    rw [← h]
  · rw [if_neg hb]

/-! ## Claim theorems -/

/-- C7: fixed-form variable-length decoding collapses a negative 16-bit
string length to the empty string, indistinguishably (same value, same
state) from a zero length; a negative 32-bit byte-array length yields a
`nil` slice, distinguishable from the present-but-empty slice a zero
length yields. -/
theorem C7_fixed_null_vs_empty :
    (∀ (d : Decoder) (hi lo : Nat) (rest : List Nat),
       d.err = none → d.src = hi :: lo :: rest → 2 ≤ d.remain →
       toSigned 16 (toUnsigned [hi, lo]) < 0 →
       d.readString = ([], { d with src := rest, remain := d.remain - 2 })) ∧
    (∀ (d : Decoder) (hi lo : Nat) (rest : List Nat),
       d.err = none → d.src = hi :: lo :: rest → 2 ≤ d.remain →
       toSigned 16 (toUnsigned [hi, lo]) = 0 →
       d.readString = ([], { d with src := rest, remain := d.remain - 2 })) ∧
    (∀ (d : Decoder) (b0 b1 b2 b3 : Nat) (rest : List Nat),
       d.err = none → d.src = b0 :: b1 :: b2 :: b3 :: rest → 4 ≤ d.remain →
       toSigned 32 (toUnsigned [b0, b1, b2, b3]) < 0 →
       d.readBytes = (none, { d with src := rest, remain := d.remain - 4 })) ∧
    (∀ (d : Decoder) (b0 b1 b2 b3 : Nat) (rest : List Nat),
       d.err = none → d.src = b0 :: b1 :: b2 :: b3 :: rest → 4 ≤ d.remain →
       toSigned 32 (toUnsigned [b0, b1, b2, b3]) = 0 →
       d.readBytes = (some [], { d with src := rest, remain := d.remain - 4 })) ∧
    (∀ bs : List Nat, (none : Option (List Nat)) ≠ some bs) := by
  refine ⟨?_, ?_, ?_, ?_, by intro bs hc; cases hc⟩
  · intro d hi lo rest h hs hr hneg
    have hx : xfer d 2 = 2 := by
      unfold xfer
      rw [hs]
      simp only [List.length_cons]
      omega
    unfold Decoder.readString
    rw [readInt16_ok d h hx]
    simp only [hs, List.take_succ_cons, List.take_zero, List.drop_succ_cons,
      List.drop_zero]
    rw [if_pos hneg]
  · intro d hi lo rest h hs hr hz
    have hx : xfer d 2 = 2 := by
      unfold xfer
      rw [hs]
      simp only [List.length_cons]
      omega
    unfold Decoder.readString
    rw [readInt16_ok d h hx]
    simp only [hs, List.take_succ_cons, List.take_zero, List.drop_succ_cons,
      List.drop_zero]
    rw [if_neg (by omega), hz]
    simp only [Int.toNat_zero]
    have hread := read_ok
      { src := rest, remain := d.remain - 2, err := d.err, bulk := d.bulk } 0 h
      (by unfold xfer; simp)
    rw [hread]
    simp
  · intro d b0 b1 b2 b3 rest h hs hr hneg
    have hx : xfer d 4 = 4 := by
      unfold xfer
      rw [hs]
      simp only [List.length_cons]
      omega
    unfold Decoder.readBytes
    rw [readInt32_ok d h hx]
    simp only [hs, List.take_succ_cons, List.take_zero, List.drop_succ_cons,
      List.drop_zero]
    rw [if_pos hneg]
  · intro d b0 b1 b2 b3 rest h hs hr hz
    have hx : xfer d 4 = 4 := by
      unfold xfer
      rw [hs]
      simp only [List.length_cons]
      omega
    unfold Decoder.readBytes
    rw [readInt32_ok d h hx]
    simp only [hs, List.take_succ_cons, List.take_zero, List.drop_succ_cons,
      List.drop_zero]
    rw [if_neg (by omega), hz]
    simp only [Int.toNat_zero]
    have hread := read_ok
      { src := rest, remain := d.remain - 4, err := d.err, bulk := d.bulk } 0 h
      (by unfold xfer; simp)
    rw [hread]
    simp

/-- Witness for C7 at concrete inputs: length prefix `0xFFFF` (= -1)
decodes as the empty string / nil slice, length `0` as the empty string /
empty slice; `nil` and empty slices differ. -/
theorem C7_fixed_null_vs_empty_witness :
    (Decoder.mk [255, 255] 8 none true).readString
      = ([], Decoder.mk [] 6 none true) ∧
    (Decoder.mk [0, 0] 8 none true).readString
      = ([], Decoder.mk [] 6 none true) ∧
    (Decoder.mk [255, 255, 255, 255] 8 none true).readBytes
      = (none, Decoder.mk [] 4 none true) ∧
    (Decoder.mk [0, 0, 0, 0] 8 none true).readBytes
      = (some [], Decoder.mk [] 4 none true) ∧
    (none : Option (List Nat)) ≠ some [] := by
  obtain ⟨h1, h2, h3, h4, h5⟩ := C7_fixed_null_vs_empty
  refine ⟨?_, ?_, ?_, ?_, h5 []⟩
  · exact h1 (Decoder.mk [255, 255] 8 none true) 255 255 [] rfl rfl
      (by decide) (by decide)
  · exact h2 (Decoder.mk [0, 0] 8 none true) 0 0 [] rfl rfl
      (by decide) (by decide)
  · exact h3 (Decoder.mk [255, 255, 255, 255] 8 none true) 255 255 255 255 []
      rfl rfl (by decide) (by decide)
  · exact h4 (Decoder.mk [0, 0, 0, 0] 8 none true) 0 0 0 0 []
      rfl rfl (by decide) (by decide)

/-- C9 counterexample: on a generic (non-`discarder`) reader, `discard 2`
with budget 4 over a 4-byte source skips all 4 bytes — more than
`min(n, remain) = 2` — so the claim "discard(n) skips at most
min(n, remain) bytes ... when the copy-to-nowhere fallback is used" is
false as stated. -/
theorem C9_discard_cex :
    ((Decoder.mk [1, 2, 3, 4] 4 none false).discard 2).src = [] ∧
    ¬ ((Decoder.mk [1, 2, 3, 4] 4 none false).src.length
        - ((Decoder.mk [1, 2, 3, 4] 4 none false).discard 2).src.length
        ≤ min 2 (Decoder.mk [1, 2, 3, 4] 4 none false).remain) := by
  have h := discard_spec_fallback (Decoder.mk [1, 2, 3, 4] 4 none false) 2 rfl rfl
  rw [h]
  decide

/-- C9 (amended): `discard n` clamps to `remain` and decrements `remain`
by exactly the bytes actually skipped in both modes, and a bulk-path
shortfall records `io.EOF` through the sticky-error path; but only the
bulk-skip path honors `n` — the copy-to-nowhere fallback ignores it and
drains `min(remain, srcLen)` bytes. -/
theorem C9_discard_amended :
    ∀ (d : Decoder) (n : Nat), d.err = none →
      (d.bulk = true →
        d.src.length - (d.discard n).src.length
          = min (min n d.remain) d.src.length ∧
        d.src.length - (d.discard n).src.length ≤ min n d.remain ∧
        d.remain - (d.discard n).remain
          = d.src.length - (d.discard n).src.length ∧
        (d.discard n).err
          = (if min (min n d.remain) d.src.length < min n d.remain
             then some Err.eof else none)) ∧
      (d.bulk = false →
        d.src.length - (d.discard n).src.length = min d.remain d.src.length ∧
        d.remain - (d.discard n).remain
          = d.src.length - (d.discard n).src.length ∧
        (d.discard n).err = none) := by
  intro d n h
  constructor
  · intro hb
    rw [discard_spec_bulk d n h hb]
    simp only [List.length_drop]
    refine ⟨by omega, by omega, by omega, by trivial⟩
  · intro hb
    rw [discard_spec_fallback d n h hb]
    simp only [List.length_drop]
    exact ⟨by omega, by omega, h⟩

/-- Witness for the amended C9: a bulk-skip discard of 2 out of 4
available bytes skips exactly 2; the fallback drains everything. -/
theorem C9_discard_amended_witness :
    (Decoder.mk [1, 2, 3, 4] 4 none true).src.length
      - ((Decoder.mk [1, 2, 3, 4] 4 none true).discard 2).src.length = 2 ∧
    (Decoder.mk [1, 2, 3, 4] 4 none false).src.length
      - ((Decoder.mk [1, 2, 3, 4] 4 none false).discard 2).src.length = 4 := by
  constructor
  · have h := (C9_discard_amended (Decoder.mk [1, 2, 3, 4] 4 none true) 2 rfl).1 rfl
    rw [h.1]
    decide
  · have h := (C9_discard_amended (Decoder.mk [1, 2, 3, 4] 4 none false) 2 rfl).2 rfl
    rw [h.1]
    decide

/-- C10: when a fixed-form string's positive 16-bit length prefix `n`
exceeds the bytes the source still holds (with enough budget), the
decoder stores the sticky truncated-input error and `readString` returns
the partial string built from the bytes actually read — not the empty
string. -/
theorem C10_partial_string :
    ∀ (d : Decoder) (hi lo : Nat) (body : List Nat),
      d.err = none → d.src = hi :: lo :: body →
      0 < toSigned 16 (toUnsigned [hi, lo]) →
      body.length < (toSigned 16 (toUnsigned [hi, lo])).toNat →
      2 + (toSigned 16 (toUnsigned [hi, lo])).toNat ≤ d.remain →
      d.readString = (body,
        { d with src := [],
                 remain := d.remain - (2 + body.length),
                 err := some (if body.length = 0 then Err.eof
                              else Err.ueof) }) := by
  intro d hi lo body h hs hpos hshort hbudget
  have hx : xfer d 2 = 2 := by
    unfold xfer
    rw [hs]
    simp only [List.length_cons]
    omega
  unfold Decoder.readString
  rw [readInt16_ok d h hx]
  simp only [hs, List.take_succ_cons, List.take_zero, List.drop_succ_cons,
    List.drop_zero]
  rw [if_neg (by omega)]
  have hx2 : xfer { src := body, remain := d.remain - 2, err := d.err, bulk := d.bulk } (toSigned 16 (toUnsigned [hi, lo])).toNat = body.length := by
    unfold xfer
    simp only []
    omega
  have hne : xfer { src := body, remain := d.remain - 2, err := d.err, bulk := d.bulk } (toSigned 16 (toUnsigned [hi, lo])).toNat ≠ (toSigned 16 (toUnsigned [hi, lo])).toNat := by
    rw [hx2]
    omega
  have hfail := read_fail { src := body, remain := d.remain - 2, err := d.err, bulk := d.bulk } (toSigned 16 (toUnsigned [hi, lo])).toNat h hne
  rw [hfail, hx2]
  dsimp only
  rw [List.take_length, List.drop_length]
  rw [discardAllPost_src_nil _ rfl]
  have hIte : (if 0 < body.length then Err.ueof else Err.eof)
      = (if body.length = 0 then Err.eof else Err.ueof) := by
    by_cases hb : body.length = 0
    · simp [hb]
    · simp [hb, Nat.pos_of_ne_zero hb]
  rw [hIte]
  have hsub : d.remain - 2 - body.length = d.remain - (2 + body.length) := by
    omega
  rw [hsub]

/-- Witness for C10: prefix `[0, 5]` declares 5 bytes but only
`"ab"` (2 bytes) follows; the result is the partial string `"ab"` with
the sticky unexpected-end error. -/
theorem C10_partial_string_witness :
    (Decoder.mk [0, 5, 97, 98] 10 none true).readString
      = ([97, 98], Decoder.mk [] 6 (some Err.ueof) true) := by
  have h := C10_partial_string (Decoder.mk [0, 5, 97, 98] 10 none true) 0 5
    [97, 98] rfl rfl (by decide) (by decide) (by decide)
  rw [h]
  decide

/-- C2: `setError` is a no-op on a nil error or when an error is already
recorded; a fresh error is recorded and immediately followed by
`discardAll` on the updated state; the sticky error is never overwritten;
and with a sticky error set, every read/decode operation is a no-op on
the state that consumes no bytes and yields zero-valued results
(`false`, `0`, the empty string; a byte-slice read yields the
empty-but-present slice). -/
theorem C2_sticky_error :
    (∀ d : Decoder, d.setError none = d) ∧
    (∀ (d : Decoder) (e : Err) (e' : Option Err),
       d.err = some e → d.setError e' = d) ∧
    (∀ (d : Decoder) (e : Err), d.err = none →
       d.setError (some e) = Decoder.discardAll { d with err := some e }) ∧
    (∀ (d : Decoder) (e : Err) (n : Nat), d.err = some e →
       d.Read n = ([], some e, d) ∧
       d.readBool = (false, d) ∧ d.readInt8 = (0, d) ∧ d.readInt16 = (0, d) ∧
       d.readInt32 = (0, d) ∧ d.readInt64 = (0, d) ∧ d.readString = ([], d) ∧
       d.readBytes = (some [], d) ∧ d.readVarInt = (0, d) ∧
       d.read n = ([], d)) ∧
    (∀ (rf : SelfDec) (op : DecodeOp) (d : Decoder) (v : Value) (e : Err),
       d.err = some e → (runOp rf op d v).2 = d) := by
  refine ⟨setError_none, ?_, setError_eq_discardAll, ?_, ?_⟩
  · intro d e e' h
    exact setError_of_err_set d e h e'
  · intro d e n h
    exact ⟨Read_err_eq d n e h, readBool_err d e h, readInt8_err d e h,
      readInt16_err d e h, readInt32_err d e h, readInt64_err d e h,
      readString_err d e h, readBytes_err d e h, readVarInt_err d e h,
      read_err d n e h⟩
  · intro rf op d v e h
    exact runOp_err rf op d v e h

/-- Witness for C2 at a concrete error-carrying state: reads are no-ops
with default results, a second error does not overwrite, and a fresh
error on a clean state drains via `discardAll`. -/
theorem C2_sticky_error_witness :
    (Decoder.mk [7, 8, 9] 5 (some Err.ueof) true).readString
      = ([], Decoder.mk [7, 8, 9] 5 (some Err.ueof) true) ∧
    (Decoder.mk [7, 8, 9] 5 (some Err.ueof) true).setError (some Err.eof)
      = Decoder.mk [7, 8, 9] 5 (some Err.ueof) true ∧
    (runOp (fun _ => (0, none)) DecodeOp.dInt64
      (Decoder.mk [7, 8, 9] 5 (some Err.ueof) true) (Value.vInt64 0)).2
      = Decoder.mk [7, 8, 9] 5 (some Err.ueof) true ∧
    (Decoder.mk [7, 8, 9] 5 none true).setError (some Err.eof)
      = Decoder.discardAll (Decoder.mk [7, 8, 9] 5 (some Err.eof) true) := by
  obtain ⟨c1, c2, c3, c4, c5⟩ := C2_sticky_error
  exact ⟨(c4 _ Err.ueof 0 rfl).2.2.2.2.2.2.1,
    c2 _ Err.ueof (some Err.eof) rfl,
    c5 (fun _ => (0, none)) DecodeOp.dInt64 _ (Value.vInt64 0) Err.ueof rfl,
    c3 _ Err.eof rfl⟩

/-- Modelled from the spec (§4.4 and the claim's words): the selection
the claim asserts, in which a string/bytes field's decoder is chosen by
the matched tag's encoding hint — compact tags get the varint-length
form. Stated only to be compared against the code's actual selection. -/
def stringDecodeFuncOfSpec (tag : structTag) : DecodeOp :=
  if tag.compact then .dCompactString else .dString

/-- Modelled from the spec (§4.4): hint-respecting selection for byte
slices, for comparison with the code's actual selection. -/
def bytesDecodeFuncOfSpec (tag : structTag) : DecodeOp :=
  if tag.compact then .dCompactBytes else .dBytes

/-- C4 counterexample: for a compact-hinted tag the schema compiler still
emits the fixed-length string/bytes decoders, not the compact ones the
hint (per the claim) selects; and the two decoders are genuinely
different — on the same input one reads a 2-byte prefix then 1 byte, the
other a varint prefix then 0 bytes. -/
theorem C4_dispatch_cex :
    stringDecodeFuncOf (structTag.mk 0 0 true)
      ≠ stringDecodeFuncOfSpec (structTag.mk 0 0 true) ∧
    bytesDecodeFuncOf (structTag.mk 0 0 true)
      ≠ bytesDecodeFuncOfSpec (structTag.mk 0 0 true) ∧
    (Decoder.mk [0, 1, 65] 9 none true).readString.1
      ≠ (Decoder.mk [0, 1, 65] 9 none true).readCompactString.1 := by
  refine ⟨?_, ?_, ?_⟩
  · simp [stringDecodeFuncOf, stringDecodeFuncOfSpec]
  · simp [bytesDecodeFuncOf, bytesDecodeFuncOfSpec]
  · simp [Decoder.readString, Decoder.readCompactString, Decoder.readInt16,
      Decoder.readVarInt, readVarIntLoop, Decoder.readByte, Decoder.readFull,
      Decoder.read, ReadFull, readFullLoop, Decoder.Read, Decoder.setError,
      toSigned, toUnsigned, zigzagDecode, Int.xor]

/-- C4 (amended): the schema compiler resolves operations by kind —
self-decoding types get the escape hatch with precedence over every
structural kind, primitives map to their primitive decoders, structs to
their compiled plan, slices to the array decoder over the element's
operation — but for string and bytes fields the fixed-length decoder is
always selected; the matched tag's encoding hint is ignored. -/
theorem C4_dispatch_amended :
    ∀ (version : Int) (tag tag' : structTag),
      stringDecodeFuncOf tag = DecodeOp.dString ∧
      bytesDecodeFuncOf tag = DecodeOp.dBytes ∧
      stringDecodeFuncOf tag = stringDecodeFuncOf tag' ∧
      bytesDecodeFuncOf tag = bytesDecodeFuncOf tag' ∧
      (∀ k : GoKind, decodeFuncOf (GoType.mk true k) version tag
        = DecodeOp.dReader) ∧
      decodeFuncOf (GoType.mk false .kBool) version tag = DecodeOp.dBool ∧
      decodeFuncOf (GoType.mk false .kInt8) version tag = DecodeOp.dInt8 ∧
      decodeFuncOf (GoType.mk false .kInt16) version tag = DecodeOp.dInt16 ∧
      decodeFuncOf (GoType.mk false .kInt32) version tag = DecodeOp.dInt32 ∧
      decodeFuncOf (GoType.mk false .kInt64) version tag = DecodeOp.dInt64 ∧
      decodeFuncOf (GoType.mk false .kString) version tag = DecodeOp.dString ∧
      decodeFuncOf (GoType.mk false .kBytes) version tag = DecodeOp.dBytes ∧
      (∀ fs : FieldList, decodeFuncOf (GoType.mk false (.kStruct fs)) version tag
        = DecodeOp.dStruct (mkPlan version fs 0)) ∧
      (∀ elem : GoType, decodeFuncOf (GoType.mk false (.kSlice elem)) version tag
        = DecodeOp.dArray elem.zeroValue (decodeFuncOf elem version tag)) := by
  intro version tag tag'
  refine ⟨rfl, rfl, rfl, rfl, ?_, ?_, ?_, ?_, ?_, ?_, ?_, ?_, ?_, ?_⟩
  · intro k
    rw [decodeFuncOf.eq_def]
    simp [readerDecodeFuncOf]
  · rw [decodeFuncOf.eq_def]
    simp
  · rw [decodeFuncOf.eq_def]
    simp
  · rw [decodeFuncOf.eq_def]
    simp
  · rw [decodeFuncOf.eq_def]
    simp
  · rw [decodeFuncOf.eq_def]
    simp
  · rw [decodeFuncOf.eq_def]
    simp [stringDecodeFuncOf]
  · rw [decodeFuncOf.eq_def]
    simp [bytesDecodeFuncOf]
  · intro fs
    rw [decodeFuncOf.eq_def]
    simp [structDecodeFuncOf]
  · intro elem
    rw [decodeFuncOf.eq_def]
    simp [arrayDecodeFuncOf]

/-- C5 counterexample: a failing self-decode records its error by direct
assignment, not via `setError` — the remaining budget is left undrained
(`remain` stays 4 on a bulk-skip reader with bytes available), whereas
recording the same error through `setError` drains it to 0.  So a
self-decode failure does not trigger the record-once-and-drain behavior
the claim asserts. -/
theorem C5_reader_cex :
    (runOp (fun _ => (1, some Err.selfDecode)) DecodeOp.dReader
        (Decoder.mk [9, 9, 9, 9] 4 none true) (Value.vBool false)).2
      = Decoder.mk [9, 9, 9] 4 (some Err.selfDecode) true ∧
    ((Decoder.mk [9, 9, 9, 9] 4 none true).setError (some Err.selfDecode)).remain
      = 0 ∧
    ¬ ((runOp (fun _ => (1, some Err.selfDecode)) DecodeOp.dReader
        (Decoder.mk [9, 9, 9, 9] 4 none true) (Value.vBool false)).2.remain = 0) := by
  have h1 : (runOp (fun _ => (1, some Err.selfDecode)) DecodeOp.dReader
      (Decoder.mk [9, 9, 9, 9] 4 none true) (Value.vBool false)).2
      = Decoder.mk [9, 9, 9] 4 (some Err.selfDecode) true := by
    simp [runOp]
  refine ⟨h1, ?_, ?_⟩
  · simp [Decoder.setError, discardAllPost]
  · rw [h1]
    decide

/-- C5 (amended): the escape-hatch operation invokes the self-decode
behavior with the raw source only when no sticky error is set, and
stores whatever error it returns directly into the sticky slot —
without `setError`, so the remaining budget is not drained and stays
unchanged; with a sticky error set it does nothing. -/
theorem C5_reader_amended :
    ∀ (rf : SelfDec) (d : Decoder) (v : Value),
      (d.err = none →
        runOp rf DecodeOp.dReader d v
          = (v, { d with src := d.src.drop (rf d.src).1,
                         err := (rf d.src).2 }) ∧
        (runOp rf DecodeOp.dReader d v).2.remain = d.remain) ∧
      (∀ e : Err, d.err = some e → runOp rf DecodeOp.dReader d v = (v, d)) := by
  intro rf d v
  constructor
  · intro h
    have heq : runOp rf DecodeOp.dReader d v
        = (v, { d with src := d.src.drop (rf d.src).1, err := (rf d.src).2 }) := by
      simp only [runOp]
      rw [if_pos h]
    exact ⟨heq, by rw [heq]⟩
  · intro e h
    simp only [runOp]
    rw [if_neg (by rw [h]; simp)]

/-- Witness for the amended C5 at a concrete input: the self-decoder
consumes 2 raw bytes and fails; the error is stored, the budget is not
drained. -/
theorem C5_reader_amended_witness :
    runOp (fun _ => (2, some Err.selfDecode)) DecodeOp.dReader
        (Decoder.mk [1, 2, 3] 7 none false) (Value.vInt32 5)
      = (Value.vInt32 5, Decoder.mk [3] 7 (some Err.selfDecode) false) ∧
    runOp (fun _ => (2, some Err.selfDecode)) DecodeOp.dReader
        (Decoder.mk [1, 2, 3] 7 (some Err.eof) false) (Value.vInt32 5)
      = (Value.vInt32 5, Decoder.mk [1, 2, 3] 7 (some Err.eof) false) := by
  obtain ⟨ha, hb⟩ := C5_reader_amended (fun _ => (2, some Err.selfDecode))
    (Decoder.mk [1, 2, 3] 7 none false) (Value.vInt32 5)
  obtain ⟨hc, hd⟩ := C5_reader_amended (fun _ => (2, some Err.selfDecode))
    (Decoder.mk [1, 2, 3] 7 (some Err.eof) false) (Value.vInt32 5)
  constructor
  · rw [(ha rfl).1]
    rfl
  · rw [hd Err.eof rfl]

/-- The array element loop always produces an array value whose length
is the length of the allocated element list, whatever the element
decoder does. -/
theorem runArray_shape (rf : SelfDec) (e : DecodeOp) :
    ∀ (fuel : Nat) (a : List Value) (i n : Nat) (d : Decoder), n - i ≤ fuel →
      ∃ (a' : List Value) (d' : Decoder),
        runArray rf e a i n d = (.vArray a', d') ∧ a'.length = a.length := by
  intro fuel
  induction fuel with
  | zero =>
    intro a i n d hf
    rw [runArray, if_neg (by omega)]
    exact ⟨a, d, rfl, rfl⟩
  | succ f ihf =>
    intro a i n d hf
    rw [runArray]
    by_cases hc : i < n ∧ 0 < d.remain
    · rw [if_pos hc]
      obtain ⟨a', d', h1, h2⟩ := ihf
        (a.set i (runOp rf e d (a.getD i (.vBool false))).1) (i + 1) n
        (runOp rf e d (a.getD i (.vBool false))).2 (by omega)
      exact ⟨a', d', h1, by rw [h2]; simp⟩
    · rw [if_neg hc]
      exact ⟨a, d, rfl, rfl⟩

/-- C8: decoding an array with a negative 32-bit count yields the empty
array with no element decoding; a non-negative count `n` allocates `n`
elements (the result array has exactly `n` entries); and the element
loop stops as soon as the budget hits zero — leaving the remaining
elements exactly as allocated (default values), changing no state and
raising no error of its own — while otherwise decoding elements one at a
time in index order. -/
theorem C8_array_decode :
    (∀ (rf : SelfDec) (dflt : Value) (e : DecodeOp) (d : Decoder)
       (b0 b1 b2 b3 : Nat) (rest : List Nat) (v : Value),
       d.err = none → d.src = b0 :: b1 :: b2 :: b3 :: rest → 4 ≤ d.remain →
       toSigned 32 (toUnsigned [b0, b1, b2, b3]) < 0 →
       runOp rf (DecodeOp.dArray dflt e) d v
         = (.vArray [], { d with src := rest, remain := d.remain - 4 })) ∧
    (∀ (rf : SelfDec) (dflt : Value) (e : DecodeOp) (d : Decoder)
       (b0 b1 b2 b3 : Nat) (rest : List Nat) (v : Value),
       d.err = none → d.src = b0 :: b1 :: b2 :: b3 :: rest → 4 ≤ d.remain →
       0 ≤ toSigned 32 (toUnsigned [b0, b1, b2, b3]) →
       ∃ (a' : List Value) (d' : Decoder),
         runOp rf (DecodeOp.dArray dflt e) d v = (.vArray a', d') ∧
         a'.length = (toSigned 32 (toUnsigned [b0, b1, b2, b3])).toNat) ∧
    (∀ (rf : SelfDec) (e : DecodeOp) (a : List Value) (i n : Nat) (d : Decoder),
       d.remain = 0 → runArray rf e a i n d = (.vArray a, d)) ∧
    (∀ (rf : SelfDec) (e : DecodeOp) (a : List Value) (i n : Nat) (d : Decoder),
       i < n → 0 < d.remain →
       runArray rf e a i n d
         = runArray rf e (a.set i (runOp rf e d (a.getD i (.vBool false))).1)
             (i + 1) n (runOp rf e d (a.getD i (.vBool false))).2) := by
  refine ⟨?_, ?_, ?_, ?_⟩
  · intro rf dflt e d b0 b1 b2 b3 rest v h hs hr hneg
    have hx : xfer d 4 = 4 := by
      unfold xfer
      rw [hs]
      simp only [List.length_cons]
      omega
    simp only [runOp]
    rw [readInt32_ok d h hx]
    simp only [hs, List.take_succ_cons, List.take_zero, List.drop_succ_cons,
      List.drop_zero]
    rw [if_pos hneg]
  · intro rf dflt e d b0 b1 b2 b3 rest v h hs hr hpos
    have hx : xfer d 4 = 4 := by
      unfold xfer
      rw [hs]
      simp only [List.length_cons]
      omega
    simp only [runOp]
    rw [readInt32_ok d h hx]
    simp only [hs, List.take_succ_cons, List.take_zero, List.drop_succ_cons,
      List.drop_zero]
    rw [if_neg (by omega)]
    obtain ⟨a', d', h1, h2⟩ := runArray_shape rf e
      ((toSigned 32 (toUnsigned [b0, b1, b2, b3])).toNat)
      (List.replicate (toSigned 32 (toUnsigned [b0, b1, b2, b3])).toNat dflt)
      0 (toSigned 32 (toUnsigned [b0, b1, b2, b3])).toNat
      { d with src := rest, remain := d.remain - 4 } (by omega)
    refine ⟨a', d', h1, by rw [h2]; simp⟩
  · intro rf e a i n d h
    rw [runArray, if_neg (by omega)]
  · intro rf e a i n d h1 h2
    rw [runArray, if_pos ⟨h1, h2⟩]

/-- Witness for C8 at concrete inputs: a `0xFFFFFFFF` (negative) count
yields the empty array consuming only the prefix; a count of 3 allocates
3 elements; an exhausted budget stops the loop with the array exactly as
allocated and the state untouched. -/
theorem C8_array_decode_witness :
    runOp (fun _ => (0, none)) (DecodeOp.dArray (Value.vBool false) DecodeOp.dBool)
        (Decoder.mk [255, 255, 255, 255] 8 none true) (Value.vBool false)
      = (Value.vArray [], Decoder.mk [] 4 none true) ∧
    (∃ (a' : List Value) (d' : Decoder),
      runOp (fun _ => (0, none)) (DecodeOp.dArray (Value.vBool false) DecodeOp.dBool)
          (Decoder.mk [0, 0, 0, 3, 1] 5 none true) (Value.vBool false)
        = (Value.vArray a', d') ∧ a'.length = 3) ∧
    runArray (fun _ => (0, none)) DecodeOp.dBool [Value.vBool true] 0 1
        (Decoder.mk [5, 6] 0 none true)
      = (Value.vArray [Value.vBool true], Decoder.mk [5, 6] 0 none true) := by
  obtain ⟨c1, c2, c3, _⟩ := C8_array_decode
  refine ⟨?_, ?_, c3 _ DecodeOp.dBool [Value.vBool true] 0 1 _ rfl⟩
  · have h := c1 (fun _ => (0, none)) (Value.vBool false) DecodeOp.dBool
      (Decoder.mk [255, 255, 255, 255] 8 none true) 255 255 255 255 []
      (Value.vBool false) rfl rfl (by decide) (by decide)
    rw [h]
    rfl
  · obtain ⟨a', d', h1, h2⟩ := c2 (fun _ => (0, none)) (Value.vBool false)
      DecodeOp.dBool (Decoder.mk [0, 0, 0, 3, 1] 5 none true) 0 0 0 3 [1]
      (Value.vBool false) rfl rfl (by decide) (by decide)
    refine ⟨a', d', h1, ?_⟩
    rw [h2]
    decide

/-! ## Plan characterization -/

/-- Number of declared fields. -/
def FieldList.length : FieldList → Nat
  | .nil => 0
  | .cons _ _ rest => rest.length + 1

/-- The tag intervals declared on field `j` (empty when out of range). -/
def FieldList.tagsAt : FieldList → Nat → List structTag
  | .nil, _ => []
  | .cons _ tags _, 0 => tags
  | .cons _ _ rest, Nat.succ n => rest.tagsAt n

/-- The type and tags of field `j`. -/
def FieldList.get? : FieldList → Nat → Option (GoType × List structTag)
  | .nil, _ => none
  | .cons t tags _, 0 => some (t, tags)
  | .cons _ _ rest, Nat.succ n => rest.get? n

/-- A compiled plan as a list of (field index, operation) entries. -/
def Plan.toList : Plan → List (Nat × DecodeOp)
  | .nil => []
  | .cons i op rest => (i, op) :: rest.toList

/-- Every entry of a plan built starting at index `i0` has index at
least `i0`. -/
theorem mkPlan_le (version : Int) (fs : FieldList) (i0 : Nat) :
    ∀ e ∈ (mkPlan version fs i0).toList, i0 ≤ e.1 := by
  cases fs with
  | nil =>
    intro e he
    rw [mkPlan, Plan.toList] at he
    cases he
  | cons t tags rest =>
    intro e he
    rw [mkPlan] at he
    have htail := mkPlan_le version rest (i0 + 1)
    cases hm : firstMatch version tags with
    | some tag =>
      rw [hm, Plan.toList] at he
      rcases List.mem_cons.mp he with h | h
      · rw [h]
      · exact Nat.le_of_succ_le (htail e h)
    | none =>
      rw [hm] at he
      exact Nat.le_of_succ_le (htail e he)
termination_by sizeOf fs

/-- The indices of a compiled plan are strictly increasing: the plan
lists the matched fields in declared order. -/
theorem mkPlan_sorted (version : Int) (fs : FieldList) (i0 : Nat) :
    List.Sorted (· < ·) ((mkPlan version fs i0).toList.map Prod.fst) := by
  cases fs with
  | nil =>
    rw [mkPlan, Plan.toList]
    exact List.sorted_nil
  | cons t tags rest =>
    rw [mkPlan]
    have htail := mkPlan_sorted version rest (i0 + 1)
    cases hm : firstMatch version tags with
    | some tag =>
      rw [Plan.toList]
      rw [List.map_cons, List.sorted_cons]
      refine ⟨?_, htail⟩
      intro b hb
      obtain ⟨e, he, hbe⟩ := List.mem_map.mp hb
      have := mkPlan_le version rest (i0 + 1) e he
      omega
    | none => exact htail
termination_by sizeOf fs

/-- Membership: index `j` appears in the plan built from `fs` starting
at `i0` exactly when `j` names a declared field (shifted by `i0`) with a
version-matching tag interval. -/
theorem mkPlan_mem_iff (version : Int) (fs : FieldList) (i0 j : Nat) :
    (∃ op, (j, op) ∈ (mkPlan version fs i0).toList) ↔
      (i0 ≤ j ∧ j - i0 < fs.length ∧
        (firstMatch version (fs.tagsAt (j - i0))).isSome = true) := by
  cases fs with
  | nil =>
    rw [mkPlan]
    constructor
    · intro ⟨op, hop⟩
      rw [Plan.toList] at hop
      cases hop
    · intro ⟨_, h2, _⟩
      rw [FieldList.length] at h2
      omega
  | cons t tags rest =>
    rw [mkPlan]
    have htail := mkPlan_mem_iff version rest (i0 + 1) j
    cases hm : firstMatch version tags with
    | some tag =>
      rw [Plan.toList]
      constructor
      · intro ⟨op, hop⟩
        rcases List.mem_cons.mp hop with h | h
        · have hj : j = i0 := by
            have := congrArg Prod.fst h
            simpa using this
          subst hj
          refine ⟨Nat.le_refl j, ?_, ?_⟩
          · rw [FieldList.length]
            omega
          · rw [Nat.sub_self, FieldList.tagsAt, hm]
            rfl
        · obtain ⟨hle, hlt, hsome⟩ := htail.mp ⟨op, h⟩
          refine ⟨by omega, ?_, ?_⟩
          · rw [FieldList.length]
            omega
          · have hsub : j - i0 = (j - (i0 + 1)) + 1 := by omega
            rw [hsub, FieldList.tagsAt]
            exact hsome
      · intro ⟨hle, hlt, hsome⟩
        by_cases hj : j = i0
        · subst hj
          exact ⟨decodeFuncOf t version tag, List.mem_cons_self _ _⟩
        · have hsub : j - i0 = (j - (i0 + 1)) + 1 := by omega
          rw [hsub, FieldList.tagsAt] at hsome
          have hlt2 : j - (i0 + 1) < rest.length := by
            rw [FieldList.length] at hlt
            omega
          obtain ⟨op, hop⟩ := htail.mpr ⟨by omega, hlt2, hsome⟩
          exact ⟨op, List.mem_cons_of_mem _ hop⟩
    | none =>
      constructor
      · intro ⟨op, hop⟩
        obtain ⟨hle, hlt, hsome⟩ := htail.mp ⟨op, hop⟩
        refine ⟨by omega, ?_, ?_⟩
        · rw [FieldList.length]
          omega
        · have hj : j ≠ i0 := by
            intro hj
            have := mkPlan_le version rest (i0 + 1) (j, op) hop
            omega
          have hsub : j - i0 = (j - (i0 + 1)) + 1 := by omega
          rw [hsub, FieldList.tagsAt]
          exact hsome
      · intro ⟨hle, hlt, hsome⟩
        by_cases hj : j = i0
        · subst hj
          rw [Nat.sub_self, FieldList.tagsAt, hm] at hsome
          cases hsome
        · have hsub : j - i0 = (j - (i0 + 1)) + 1 := by omega
          rw [hsub, FieldList.tagsAt] at hsome
          have hlt2 : j - (i0 + 1) < rest.length := by
            rw [FieldList.length] at hlt
            omega
          exact htail.mpr ⟨by omega, hlt2, hsome⟩
termination_by sizeOf fs

/-- Every plan entry's operation comes from `decodeFuncOf` at the first
version-matching tag of the entry's field. -/
theorem mkPlan_ops (version : Int) (fs : FieldList) (i0 : Nat) :
    ∀ e ∈ (mkPlan version fs i0).toList,
      ∃ (t : GoType) (tags : List structTag) (tag : structTag),
        fs.get? (e.1 - i0) = some (t, tags) ∧
        firstMatch version tags = some tag ∧
        e.2 = decodeFuncOf t version tag := by
  cases fs with
  | nil =>
    intro e he
    rw [mkPlan, Plan.toList] at he
    cases he
  | cons t tags rest =>
    intro e he
    rw [mkPlan] at he
    have htail := mkPlan_ops version rest (i0 + 1)
    cases hm : firstMatch version tags with
    | some tag =>
      rw [hm, Plan.toList] at he
      rcases List.mem_cons.mp he with h | h
      · refine ⟨t, tags, tag, ?_, hm, ?_⟩
        · rw [h]
          simp only [Nat.sub_self]
          rw [FieldList.get?]
        · rw [h]
      · obtain ⟨t', tags', tag', h1, h2, h3⟩ := htail e h
        have hle := mkPlan_le version rest (i0 + 1) e h
        refine ⟨t', tags', tag', ?_, h2, h3⟩
        have hsub : e.1 - i0 = (e.1 - (i0 + 1)) + 1 := by omega
        rw [hsub, FieldList.get?]
        exact h1
    | none =>
      rw [hm] at he
      obtain ⟨t', tags', tag', h1, h2, h3⟩ := htail e he
      have hle := mkPlan_le version rest (i0 + 1) e he
      refine ⟨t', tags', tag', ?_, h2, h3⟩
      have hsub : e.1 - i0 = (e.1 - (i0 + 1)) + 1 := by omega
      rw [hsub, FieldList.get?]
      exact h1
termination_by sizeOf fs

/-- Writing a different field leaves `fieldAt j` unchanged. -/
theorem fieldAt_setFieldAt_ne (v x : Value) (i j : Nat) (h : i ≠ j) :
    (v.setFieldAt i x).fieldAt j = v.fieldAt j := by
  cases v with
  | vStruct fields =>
    rw [Value.setFieldAt, Value.fieldAt, Value.fieldAt]
    unfold List.getD
    rw [List.get?_set_ne x fields h]
  | vBool b => rfl
  | vInt8 a => rfl
  | vInt16 a => rfl
  | vInt32 a => rfl
  | vInt64 a => rfl
  | vString a => rfl
  | vBytes a => rfl
  | vArray a => rfl

/-- Running a plan never writes a destination field whose index is not
in the plan. -/
theorem runPlan_untouched (rf : SelfDec) (p : Plan) (d : Decoder) (v : Value)
    (j : Nat) (hj : ∀ e ∈ p.toList, e.1 ≠ j) :
    (runPlan rf p d v).1.fieldAt j = v.fieldAt j := by
  cases p with
  | nil => rw [runPlan]
  | cons i op rest =>
    rw [runPlan]
    have hne : i ≠ j := hj (i, op) (List.mem_cons_self _ _)
    have htail := runPlan_untouched rf rest
      (runOp rf op d (v.fieldAt i)).2
      (v.setFieldAt i (runOp rf op d (v.fieldAt i)).1) j
      (fun e he => hj e (List.mem_cons_of_mem _ he))
    rw [htail]
    exact fieldAt_setFieldAt_ne v _ i j hne
termination_by sizeOf p

/-- C3: for every record type and requested version, the compiled decode
plan contains exactly the fields with a version-matching tag interval —
membership iff the field's tag list has a matching interval — in
declared (strictly increasing index) order; each matched field's
operation is built from its first matching interval only; and a field
with no matching interval is omitted and its destination never written
by the plan. -/
theorem C3_plan_exactness :
    ∀ (version : Int) (fs : FieldList),
      List.Sorted (· < ·) ((mkPlan version fs 0).toList.map Prod.fst) ∧
      (∀ j : Nat, (∃ op, (j, op) ∈ (mkPlan version fs 0).toList) ↔
        (j < fs.length ∧
          (firstMatch version (fs.tagsAt j)).isSome = true)) ∧
      (∀ e ∈ (mkPlan version fs 0).toList,
        ∃ (t : GoType) (tags : List structTag) (tag : structTag),
          fs.get? e.1 = some (t, tags) ∧
          firstMatch version tags = some tag ∧
          e.2 = decodeFuncOf t version tag) ∧
      (∀ (j : Nat) (rf : SelfDec) (d : Decoder) (v : Value),
        firstMatch version (fs.tagsAt j) = none →
        (runOp rf (DecodeOp.dStruct (mkPlan version fs 0)) d v).1.fieldAt j
          = v.fieldAt j) := by
  intro version fs
  refine ⟨mkPlan_sorted version fs 0, ?_, ?_, ?_⟩
  · intro j
    have h := mkPlan_mem_iff version fs 0 j
    simpa using h
  · intro e he
    have h := mkPlan_ops version fs 0 e he
    simpa using h
  · intro j rf d v hnone
    simp only [runOp]
    apply runPlan_untouched
    intro e he hej
    obtain ⟨hle, hlt, hsome⟩ := (mkPlan_mem_iff version fs 0 e.1).mp ⟨e.2, he⟩
    simp only [Nat.sub_zero, hej, hnone, Option.isSome_none] at hsome
    cases hsome

/-- Witness for C3 on a concrete two-field descriptor at version 1: only
the first field (interval `[0, 2]`) matches — the second (interval
`[3, 5]`) is omitted and its destination is preserved. -/
theorem C3_plan_exactness_witness :
    (∃ op, (0, op) ∈ (mkPlan 1 (FieldList.cons (GoType.mk false .kInt32)
        [structTag.mk 0 2 false]
        (FieldList.cons (GoType.mk false .kString) [structTag.mk 3 5 false]
          FieldList.nil)) 0).toList) ∧
    ¬ (∃ op, (1, op) ∈ (mkPlan 1 (FieldList.cons (GoType.mk false .kInt32)
        [structTag.mk 0 2 false]
        (FieldList.cons (GoType.mk false .kString) [structTag.mk 3 5 false]
          FieldList.nil)) 0).toList) ∧
    (runOp (fun _ => (0, none)) (DecodeOp.dStruct (mkPlan 1
        (FieldList.cons (GoType.mk false .kInt32) [structTag.mk 0 2 false]
          (FieldList.cons (GoType.mk false .kString) [structTag.mk 3 5 false]
            FieldList.nil)) 0))
        (Decoder.mk [0, 0, 0, 42] 4 none true)
        (Value.vStruct [Value.vInt32 0, Value.vString [99]])).1.fieldAt 1
      = (Value.vStruct [Value.vInt32 0, Value.vString [99]]).fieldAt 1 := by
  obtain ⟨s1, s2, s3, s4⟩ := C3_plan_exactness 1
    (FieldList.cons (GoType.mk false .kInt32) [structTag.mk 0 2 false]
      (FieldList.cons (GoType.mk false .kString) [structTag.mk 3 5 false]
        FieldList.nil))
  refine ⟨?_, ?_, ?_⟩
  · exact (s2 0).mpr ⟨by decide, by decide⟩
  · intro hc
    obtain ⟨h1, h2⟩ := (s2 1).mp hc
    exact absurd h2 (by decide)
  · exact s4 1 (fun _ => (0, none)) (Decoder.mk [0, 0, 0, 42] 4 none true)
      (Value.vStruct [Value.vInt32 0, Value.vString [99]]) (by decide)

/-! ## Zigzag varint round-trip -/

/-- Accumulating a 7-bit group above the bits already collected: the
bitwise or is plain addition because the operands occupy disjoint bit
ranges. -/
theorem lor_shiftLeft_eq_add (x y s : Nat) (h : x < 2 ^ s) :
    x ||| (y <<< s) = x + y * 2 ^ s := by
  rw [Nat.shiftLeft_eq, Nat.lor_comm, mul_comm]
  rw [← Nat.mul_add_lt_is_or h y]
  ring

/-- Value of the zigzag decoding formula `int64(x>>1) ^ -(int64(x)&1)`
on an in-range accumulator. -/
theorem zigzagDecode_eq (x : Nat) (hx : x < 2 ^ 64) :
    zigzagDecode x
      = if x % 2 = 0 then ((x / 2 : Nat) : Int)
        else -((x / 2 : Nat) : Int) - 1 := by
  unfold zigzagDecode toSigned
  have hs : x >>> 1 = x / 2 := rfl
  have hlt : x / 2 < 2 ^ 63 := by omega
  have hmod : x / 2 % 2 ^ 64 = x / 2 := Nat.mod_eq_of_lt (by omega)
  rw [hs, hmod, if_pos (by omega), Nat.and_one_is_mod]
  by_cases hp : x % 2 = 0
  · rw [hp, if_pos rfl]
    rw [Nat.cast_zero, neg_zero]
    have h0 : Int.xor ((x / 2 : Nat) : Int) 0 = (((x / 2) ^^^ 0 : Nat) : Int) := rfl
    rw [h0, Nat.xor_zero]
  · have hp1 : x % 2 = 1 := by omega
    rw [hp1, if_neg (by omega)]
    have h1 : -(((1 : Nat) : Int)) = -1 := by norm_num
    rw [h1]
    have h2 : Int.xor ((x / 2 : Nat) : Int) (-1)
        = Int.negSucc ((x / 2) ^^^ 0) := rfl
    rw [h2, Nat.xor_zero, Int.negSucc_eq]
    ring

/-- The zigzag decode formula inverts the (spec-modelled) zigzag
encoding on the signed 64-bit range. -/
theorem zigzagDecode_zigzagEncode (v : Int) (h1 : -(2 ^ 63) ≤ v)
    (h2 : v < 2 ^ 63) : zigzagDecode (zigzagEncode v) = v := by
  unfold zigzagEncode
  by_cases hv : 0 ≤ v
  · rw [if_pos hv, zigzagDecode_eq _ (by omega)]
    rw [if_pos (by omega)]
    have : 2 * v.toNat / 2 = v.toNat := by omega
    rw [this]
    omega
  · rw [if_neg hv, zigzagDecode_eq _ (by omega)]
    rw [if_neg (by omega)]
    have : (2 * (-(v + 1)).toNat + 1) / 2 = (-(v + 1)).toNat := by omega
    rw [this]
    omega

/-- An unsigned value below `2 ^ (7 * (k + 1))` encodes in at most
`k + 1` varint bytes. -/
theorem encodeUVarint_length :
    ∀ (k u : Nat), u < 2 ^ (7 * (k + 1)) → (encodeUVarint u).length ≤ k + 1 := by
  intro k
  induction k with
  | zero =>
    intro u h
    rw [encodeUVarint]
    have hu : u < 128 := by norm_num at h; omega
    rw [if_pos hu]
    simp
  | succ kk ih =>
    intro u h
    rw [encodeUVarint]
    by_cases hu : u < 128
    · rw [if_pos hu]
      simp
    · rw [if_neg hu]
      have hpow : (2 : Nat) ^ (7 * (kk + 1 + 1)) = 2 ^ (7 * (kk + 1)) * 128 := by
        have h7 : 7 * (kk + 1 + 1) = 7 * (kk + 1) + 7 := by ring
        rw [h7, pow_add]
        norm_num
      have hdiv : u / 128 < 2 ^ (7 * (kk + 1)) := by
        rw [Nat.div_lt_iff_lt_mul (by omega)]
        omega
      have := ih (u / 128) hdiv
      simp only [List.length_cons]
      omega

/-- A byte below 128 has a clear continuation bit. -/
theorem and128_eq_zero (u : Nat) (h : u < 128) : u &&& 128 = 0 := by
  have h1 := Nat.and_two_pow u 7
  norm_num at h1
  rw [h1, Nat.testBit_eq_false_of_lt (show u < 2 ^ 7 by norm_num; omega)]
  rfl

/-- A 7-bit payload plus the continuation flag has the flag set. -/
theorem and128_ne_zero (m : Nat) (h : m < 128) : (m + 128) &&& 128 = 128 := by
  have h1 := Nat.and_two_pow (m + 128) 7
  norm_num at h1
  rw [h1]
  have h2 : (m + 128).testBit 7 = true := by
    rw [Nat.testBit_to_div_mod]
    norm_num
    omega
  rw [h2]
  norm_num

/-- Stripping the continuation flag recovers the 7-bit payload. -/
theorem and127_payload (m : Nat) (h : m < 128) : (m + 128) &&& 127 = m := by
  have h1 := Nat.and_pow_two_sub_one_eq_mod (m + 128) 7
  norm_num at h1
  rw [h1]
  omega

/-- The varint loop consumes exactly the (spec-modelled) encoding of `u`
and returns the zigzag decoding of the accumulated value, provided the
byte budget `n` covers the encoding's length and the partial accumulator
`x` sits below the current shift. -/
theorem readVarIntLoop_spec :
    ∀ (u : Nat) (d : Decoder) (rest : List Nat) (n x s : Nat),
      d.err = none → d.src = encodeUVarint u ++ rest →
      (encodeUVarint u).length ≤ n → n ≤ d.remain →
      x < 2 ^ s → x + u * 2 ^ s < 2 ^ 64 →
      readVarIntLoop d n x s
        = (zigzagDecode (x + u * 2 ^ s),
           { d with src := rest,
                    remain := d.remain - (encodeUVarint u).length }) := by
  intro u
  induction u using Nat.strong_induction_on with
  | _ u ih =>
    intro d rest n x s h hs hlen hrem hx hbound
    have hb1 : u * 2 ^ s < 2 ^ 64 := by omega
    by_cases hu : u < 128
    · -- terminating byte
      rw [encodeUVarint, if_pos hu] at hs hlen ⊢
      simp only [List.length_cons, List.length_nil] at hlen ⊢
      match n, hlen with
      | Nat.succ n', _ =>
        rw [readVarIntLoop]
        have hx1 : xfer d 1 = 1 := by
          unfold xfer
          rw [hs]
          simp only [List.cons_append, List.length_cons]
          omega
        rw [readByte_ok d h hx1]
        simp only [hs, List.cons_append, List.headD_cons, List.drop_succ_cons,
          List.drop_zero]
        rw [show (0x80 : Nat) = 128 from rfl, and128_eq_zero u hu, if_pos rfl]
        have hshift : (u <<< s) % 2 ^ 64 = u <<< s := by
          apply Nat.mod_eq_of_lt
          rw [Nat.shiftLeft_eq]
          omega
        rw [hshift, lor_shiftLeft_eq_add x u s hx]
        simp
    · -- continuation byte
      rw [encodeUVarint, if_neg hu] at hs hlen ⊢
      simp only [List.length_cons] at hlen ⊢
      match n, hlen with
      | Nat.succ n', hlen =>
        rw [readVarIntLoop]
        have hx1 : xfer d 1 = 1 := by
          unfold xfer
          rw [hs]
          simp only [List.cons_append, List.length_cons]
          omega
        rw [readByte_ok d h hx1]
        simp only [hs, List.cons_append, List.headD_cons, List.drop_succ_cons,
          List.drop_zero]
        have hm : u % 128 < 128 := Nat.mod_lt u (by omega)
        rw [show (0x80 : Nat) = 128 from rfl, and128_ne_zero (u % 128) hm]
        rw [if_neg (by omega)]
        rw [show (0x7f : Nat) = 127 from rfl, and127_payload (u % 128) hm]
        have hshift : ((u % 128) <<< s) % 2 ^ 64 = (u % 128) <<< s := by
          apply Nat.mod_eq_of_lt
          rw [Nat.shiftLeft_eq]
          have : u % 128 * 2 ^ s ≤ u * 2 ^ s :=
            Nat.mul_le_mul_right _ (Nat.mod_le u 128)
          omega
        rw [hshift, lor_shiftLeft_eq_add x (u % 128) s hx]
        have hdivlt : u / 128 < u := Nat.div_lt_self (by omega) (by omega)
        have harith1 : x + u % 128 * 2 ^ s < 2 ^ (s + 7) := by
          have hpow : (2 : Nat) ^ (s + 7) = 2 ^ s * 128 := by
            rw [pow_add]
            norm_num
          have : u % 128 * 2 ^ s ≤ 127 * 2 ^ s :=
            Nat.mul_le_mul_right _ (by omega)
          nlinarith [pow_pos (show (0 : Nat) < 2 by omega) s]
        have harith2 : x + u % 128 * 2 ^ s + u / 128 * 2 ^ (s + 7)
            = x + u * 2 ^ s := by
          have hpow : (2 : Nat) ^ (s + 7) = 2 ^ s * 128 := by
            rw [pow_add]
            norm_num
          rw [hpow]
          have hdm := Nat.div_add_mod u 128
          nlinarith
        have hrec := ih (u / 128) hdivlt
          { d with src := encodeUVarint (u / 128) ++ rest, remain := d.remain - 1 }
          rest n' (x + u % 128 * 2 ^ s) (s + 7) h rfl (by omega)
          (show n' ≤ d.remain - 1 by omega)
          harith1 (by rw [harith2]; exact hbound)
        rw [hrec, harith2]
        simp only [Prod.mk.injEq, Decoder.mk.injEq, true_and, and_true]
        omega

/-- C6: zigzag varint round-trip — for every signed 64-bit value `v`,
`readVarInt` decodes the (spec-modelled) zigzag-varint encoding of `v`
back to `v`, consuming exactly the encoding (at most 10 bytes, within
the decoder's 11-byte varint budget), where the decoder computes the
final signed result from the accumulated raw value `x` as
`(x >> 1) XOR -(x & 1)`. -/
theorem C6_zigzag_roundtrip :
    ∀ (v : Int) (rest : List Nat) (d : Decoder),
      d.err = none → d.src = encodeVarInt v ++ rest → 11 ≤ d.remain →
      -(2 ^ 63) ≤ v → v < 2 ^ 63 →
      d.readVarInt
        = (v, { d with src := rest,
                       remain := d.remain - (encodeVarInt v).length }) := by
  intro v rest d h hs hr h1 h2
  unfold Decoder.readVarInt
  unfold encodeVarInt at hs ⊢
  have hu64 : zigzagEncode v < 2 ^ 64 := by
    unfold zigzagEncode
    split <;> omega
  have hlen10 : (encodeUVarint (zigzagEncode v)).length ≤ 10 := by
    have h70 : zigzagEncode v < 2 ^ (7 * (9 + 1)) := by
      norm_num
      omega
    have := encodeUVarint_length 9 (zigzagEncode v) h70
    omega
  have hmin : min 11 d.remain = 11 := by omega
  rw [hmin]
  have hloop := readVarIntLoop_spec (zigzagEncode v) d rest 11 0 0 h hs
    (by omega) (by omega) (by norm_num) (by simpa using hu64)
  rw [hloop]
  have harg : 0 + zigzagEncode v * 2 ^ 0 = zigzagEncode v := by simp
  rw [harg, zigzagDecode_zigzagEncode v h1 h2]

/-- Witness for C6 at the spec's nine listed values: encoding then
decoding returns each value and consumes exactly the encoding. -/
theorem C6_zigzag_roundtrip_witness :
    (Decoder.mk (encodeVarInt 0) 11 none true).readVarInt
      = (0, Decoder.mk [] 10 none true) ∧
    (Decoder.mk (encodeVarInt (-1)) 11 none true).readVarInt
      = ((-1), Decoder.mk [] 10 none true) ∧
    (Decoder.mk (encodeVarInt 1) 11 none true).readVarInt
      = (1, Decoder.mk [] 10 none true) ∧
    (Decoder.mk (encodeVarInt (-2)) 11 none true).readVarInt
      = ((-2), Decoder.mk [] 10 none true) ∧
    (Decoder.mk (encodeVarInt 2) 11 none true).readVarInt
      = (2, Decoder.mk [] 10 none true) ∧
    (Decoder.mk (encodeVarInt 63) 11 none true).readVarInt
      = (63, Decoder.mk [] 10 none true) ∧
    (Decoder.mk (encodeVarInt (-64)) 11 none true).readVarInt
      = ((-64), Decoder.mk [] 10 none true) ∧
    (Decoder.mk (encodeVarInt 1000000) 11 none true).readVarInt
      = (1000000, Decoder.mk [] 8 none true) ∧
    (Decoder.mk (encodeVarInt (-1000000)) 11 none true).readVarInt
      = ((-1000000), Decoder.mk [] 8 none true) := by
  refine ⟨?_, ?_, ?_, ?_, ?_, ?_, ?_, ?_, ?_⟩
  · have hlen : (encodeVarInt 0).length = 1 := by
      simp [encodeVarInt, encodeUVarint, zigzagEncode]
    rw [C6_zigzag_roundtrip 0 [] _ rfl (List.append_nil _).symm
      (by norm_num) (by norm_num) (by norm_num), hlen]
    rfl
  · have hlen : (encodeVarInt (-1)).length = 1 := by
      simp [encodeVarInt, encodeUVarint, zigzagEncode]
    rw [C6_zigzag_roundtrip (-1) [] _ rfl (List.append_nil _).symm
      (by norm_num) (by norm_num) (by norm_num), hlen]
    rfl
  · have hlen : (encodeVarInt 1).length = 1 := by
      simp [encodeVarInt, encodeUVarint, zigzagEncode]
    rw [C6_zigzag_roundtrip 1 [] _ rfl (List.append_nil _).symm
      (by norm_num) (by norm_num) (by norm_num), hlen]
    rfl
  · have hlen : (encodeVarInt (-2)).length = 1 := by
      simp [encodeVarInt, encodeUVarint, zigzagEncode]
    rw [C6_zigzag_roundtrip (-2) [] _ rfl (List.append_nil _).symm
      (by norm_num) (by norm_num) (by norm_num), hlen]
    rfl
  · have hlen : (encodeVarInt 2).length = 1 := by
      simp [encodeVarInt, encodeUVarint, zigzagEncode]
    rw [C6_zigzag_roundtrip 2 [] _ rfl (List.append_nil _).symm
      (by norm_num) (by norm_num) (by norm_num), hlen]
    rfl
  · have hlen : (encodeVarInt 63).length = 1 := by
      simp [encodeVarInt, encodeUVarint, zigzagEncode]
    rw [C6_zigzag_roundtrip 63 [] _ rfl (List.append_nil _).symm
      (by norm_num) (by norm_num) (by norm_num), hlen]
    rfl
  · have hlen : (encodeVarInt (-64)).length = 1 := by
      simp [encodeVarInt, encodeUVarint, zigzagEncode]
    rw [C6_zigzag_roundtrip (-64) [] _ rfl (List.append_nil _).symm
      (by norm_num) (by norm_num) (by norm_num), hlen]
    rfl
  · have hlen : (encodeVarInt 1000000).length = 3 := by
      simp [encodeVarInt, encodeUVarint, zigzagEncode]
    rw [C6_zigzag_roundtrip 1000000 [] _ rfl (List.append_nil _).symm
      (by norm_num) (by norm_num) (by norm_num), hlen]
    rfl
  · have hlen : (encodeVarInt (-1000000)).length = 3 := by
      simp [encodeVarInt, encodeUVarint, zigzagEncode]
    rw [C6_zigzag_roundtrip (-1000000) [] _ rfl (List.append_nil _).symm
      (by norm_num) (by norm_num) (by norm_num), hlen]
    rfl

/-! ## Budget accounting invariant -/

/-- State-evolution invariant of one decode step on a bulk-skip reader:
the budget and the source only shrink, they shrink by exactly the same
amount (every consumed byte is charged to the budget), a pre-existing
sticky error freezes the state, and once an error is recorded the
remaining budget or the remaining source has been fully drained. -/
structure StepInv (d d' : Decoder) : Prop where
  bulk : d'.bulk = d.bulk
  remain_le : d'.remain ≤ d.remain
  src_le : d'.src.length ≤ d.src.length
  account : d.remain - d'.remain = d.src.length - d'.src.length
  sticky : ∀ e, d.err = some e → d' = d
  drained : d'.err ≠ none → d.err ≠ none ∨ d'.remain = 0 ∨ d'.src.length = 0

/-- The invariant is reflexive. -/
theorem StepInv_refl (d : Decoder) : StepInv d d :=
  ⟨rfl, Nat.le_refl _, Nat.le_refl _, by omega, fun _ _ => rfl, fun h => Or.inl h⟩

/-- The invariant composes along successive steps. -/
theorem Inv_trans {d d' d'' : Decoder} (h1 : StepInv d d') (h2 : StepInv d' d'') :
    StepInv d d'' := by
  refine ⟨h2.bulk.trans h1.bulk, h2.remain_le.trans h1.remain_le,
    h2.src_le.trans h1.src_le, ?_, ?_, ?_⟩
  · have a1 := h1.account
    have a2 := h2.account
    have := h1.remain_le
    have := h2.remain_le
    have := h1.src_le
    have := h2.src_le
    omega
  · intro e he
    have hd' : d' = d := h1.sticky e he
    rw [hd'] at h2
    exact h2.sticky e he
  · intro he
    rcases h2.drained he with h | h
    · rcases Option.ne_none_iff_exists.mp h with ⟨e, he'⟩
      rcases h1.drained (by rw [← he']; exact fun hc => by cases hc) with h' | h'
      · exact Or.inl h'
      · have hd'' : d'' = d' := h2.sticky e he'.symm
        rw [hd'']
        exact Or.inr h'
    · exact Or.inr h

/-- Recording an error respects the step invariant on a bulk-skip
reader: the post-error drain consumes the rest of the budget or the rest
of the source. -/
theorem StepInv_setError (d : Decoder) (e : Option Err) (hb : d.bulk = true) :
    StepInv d (d.setError e) := by
  cases herr : d.err with
  | some e0 =>
    rw [setError_of_err_set d e0 herr e]
    exact StepInv_refl d
  | none =>
    cases e with
    | none =>
      rw [setError_none]
      exact StepInv_refl d
    | some e1 =>
      rw [setError_some_of_none d e1 herr]
      unfold discardAllPost
      rw [if_pos (show ({ d with err := some e1 } : Decoder).bulk = true from hb)]
      refine ⟨rfl, by simp, by simp [List.length_drop], ?_, ?_, ?_⟩
      · simp only [List.length_drop]
        omega
      · intro e2 he2
        rw [herr] at he2
        cases he2
      · intro _
        right
        simp only [List.length_drop]
        omega

/-- `readFull` respects the step invariant on a bulk-skip reader. -/
theorem StepInv_readFull (d : Decoder) (n : Nat) (hb : d.bulk = true) :
    StepInv d (d.readFull n).2.2 := by
  cases herr : d.err with
  | some e =>
    by_cases hn : n = 0
    · subst hn
      unfold Decoder.readFull
      rw [ReadFull_zero]
      simp only [setError_none]
      exact StepInv_refl d
    · rw [readFull_err d n e herr hn]
      exact StepInv_refl d
  | none =>
    by_cases hk : xfer d n = n
    · rw [readFull_ok d n herr hk]
      have hx : n ≤ d.remain ∧ n ≤ d.src.length := by
        unfold xfer at hk
        omega
      refine ⟨rfl, ?_, ?_, ?_, ?_, ?_⟩
      · dsimp only
        omega
      · dsimp only
        simp only [List.length_drop]
        omega
      · dsimp only
        simp only [List.length_drop]
        omega
      · intro e2 he2
        rw [herr] at he2
        cases he2
      · intro he2
        exact absurd herr he2
    · rw [readFull_fail d n herr hk]
      have hx : xfer d n ≤ d.remain ∧ xfer d n ≤ d.src.length := by
        unfold xfer
        omega
      unfold discardAllPost
      rw [if_pos hb]
      refine ⟨rfl, ?_, ?_, ?_, ?_, ?_⟩
      · dsimp only
        omega
      · dsimp only
        simp only [List.length_drop]
        omega
      · dsimp only
        simp only [List.length_drop]
        omega
      · intro e2 he2
        rw [herr] at he2
        cases he2
      · intro _
        right
        dsimp only
        simp only [List.length_drop]
        omega

/-- `read` respects the step invariant on a bulk-skip reader. -/
theorem StepInv_read (d : Decoder) (n : Nat) (hb : d.bulk = true) :
    StepInv d (d.read n).2 := by
  have h : (d.read n).2 = (d.readFull n).2.2 := rfl
  rw [h]
  exact StepInv_readFull d n hb

/-- All fixed-width reads respect the step invariant on a bulk-skip
reader (their state is the `readFull` state). -/
theorem StepInv_readInts (d : Decoder) (hb : d.bulk = true) :
    StepInv d (d.readBool).2 ∧ StepInv d (d.readInt8).2 ∧
    StepInv d (d.readInt16).2 ∧ StepInv d (d.readInt32).2 ∧
    StepInv d (d.readInt64).2 := by
  refine ⟨?_, ?_, ?_, ?_, ?_⟩
  · exact StepInv_readFull d 1 hb
  · exact StepInv_readFull d 1 hb
  · exact StepInv_readFull d 2 hb
  · exact StepInv_readFull d 4 hb
  · exact StepInv_readFull d 8 hb

/-- `readString` respects the step invariant on a bulk-skip reader. -/
theorem StepInv_readString (d : Decoder) (hb : d.bulk = true) :
    StepInv d (d.readString).2 := by
  unfold Decoder.readString
  have h1 : StepInv d (d.readInt16).2 := StepInv_readFull d 2 hb
  by_cases hneg : (d.readInt16).1 < 0
  · rw [if_pos hneg]
    exact h1
  · rw [if_neg hneg]
    exact Inv_trans h1
      (StepInv_read (d.readInt16).2 (d.readInt16).1.toNat (h1.bulk.trans hb))

/-- `readBytes` respects the step invariant on a bulk-skip reader. -/
theorem StepInv_readBytes (d : Decoder) (hb : d.bulk = true) :
    StepInv d (d.readBytes).2 := by
  unfold Decoder.readBytes
  have h1 : StepInv d (d.readInt32).2 := StepInv_readFull d 4 hb
  by_cases hneg : (d.readInt32).1 < 0
  · rw [if_pos hneg]
    exact h1
  · rw [if_neg hneg]
    exact Inv_trans h1
      (StepInv_read (d.readInt32).2 (d.readInt32).1.toNat (h1.bulk.trans hb))

/-- The varint loop respects the step invariant on a bulk-skip
reader. -/
theorem StepInv_readVarIntLoop (n : Nat) :
    ∀ (d : Decoder) (x s : Nat), d.bulk = true →
      StepInv d (readVarIntLoop d n x s).2 := by
  induction n with
  | zero =>
    intro d x s hb
    rw [readVarIntLoop]
    exact StepInv_setError d (some Err.badVarint) hb
  | succ n' ih =>
    intro d x s hb
    rw [readVarIntLoop]
    have h1 : StepInv d (d.readByte).2 := StepInv_readFull d 1 hb
    by_cases hB : (d.readByte).1 &&& 0x80 = 0
    · rw [if_pos hB]
      exact h1
    · rw [if_neg hB]
      exact Inv_trans h1 (ih (d.readByte).2 _ _ (h1.bulk.trans hb))

/-- `readVarInt` respects the step invariant on a bulk-skip reader. -/
theorem StepInv_readVarInt (d : Decoder) (hb : d.bulk = true) :
    StepInv d (d.readVarInt).2 :=
  StepInv_readVarIntLoop (min 11 d.remain) d 0 0 hb

/-- The compact string/bytes reads respect the step invariant on a
bulk-skip reader. -/
theorem StepInv_readCompact (d : Decoder) (hb : d.bulk = true) :
    StepInv d (d.readCompactString).2 ∧ StepInv d (d.readCompactBytes).2 := by
  constructor
  · unfold Decoder.readCompactString
    have h1 := StepInv_readVarInt d hb
    by_cases hneg : (d.readVarInt).1 < 0
    · rw [if_pos hneg]
      exact h1
    · rw [if_neg hneg]
      exact Inv_trans h1
        (StepInv_read (d.readVarInt).2 (d.readVarInt).1.toNat (h1.bulk.trans hb))
  · unfold Decoder.readCompactBytes
    have h1 := StepInv_readVarInt d hb
    by_cases hneg : (d.readVarInt).1 < 0
    · rw [if_pos hneg]
      exact h1
    · rw [if_neg hneg]
      exact Inv_trans h1
        (StepInv_read (d.readVarInt).2 (d.readVarInt).1.toNat (h1.bulk.trans hb))


/-- The array element loop respects the step invariant whenever the
element operation does. -/
theorem StepInv_runArray_of (rf : SelfDec) (elemOp : DecodeOp)
    (H : ∀ (d : Decoder) (v : Value), d.bulk = true →
      StepInv d (runOp rf elemOp d v).2) :
    ∀ (fuel i n : Nat) (a : List Value) (d : Decoder), n - i ≤ fuel →
      d.bulk = true → StepInv d (runArray rf elemOp a i n d).2 := by
  intro fuel
  induction fuel with
  | zero =>
    intro i n a d hfuel hb
    rw [runArray]
    rw [if_neg (by omega)]
    exact StepInv_refl d
  | succ f ih =>
    intro i n a d hfuel hb
    rw [runArray]
    by_cases hc : i < n ∧ 0 < d.remain
    · rw [if_pos hc]
      have h1 := H d (a.getD i (.vBool false)) hb
      exact Inv_trans h1 (ih (i + 1) n
        (a.set i (runOp rf elemOp d (a.getD i (.vBool false))).1)
        (runOp rf elemOp d (a.getD i (.vBool false))).2 (by omega)
        (h1.bulk.trans hb))
    · rw [if_neg hc]
      exact StepInv_refl d

/-- Every reader-free operation and every reader-free plan respects the
step invariant on a bulk-skip reader (strong induction on the size of
the operation respectively plan). -/
theorem StepInv_run_all (rf : SelfDec) (N : Nat) :
    (∀ (op : DecodeOp), sizeOf op ≤ N → ∀ (d : Decoder) (v : Value),
      d.bulk = true → readerFree op = true → StepInv d (runOp rf op d v).2) ∧
    (∀ (p : Plan), sizeOf p ≤ N → ∀ (d : Decoder) (v : Value),
      d.bulk = true → planReaderFree p = true → StepInv d (runPlan rf p d v).2) := by
  induction N using Nat.strong_induction_on with
  | _ N IH =>
    constructor
    · intro op hsz d v hb hf
      cases op with
      | dBool => simp only [runOp]; exact (StepInv_readInts d hb).1
      | dInt8 => simp only [runOp]; exact (StepInv_readInts d hb).2.1
      | dInt16 => simp only [runOp]; exact (StepInv_readInts d hb).2.2.1
      | dInt32 => simp only [runOp]; exact (StepInv_readInts d hb).2.2.2.1
      | dInt64 => simp only [runOp]; exact (StepInv_readInts d hb).2.2.2.2
      | dString => simp only [runOp]; exact StepInv_readString d hb
      | dCompactString => simp only [runOp]; exact (StepInv_readCompact d hb).1
      | dBytes => simp only [runOp]; exact StepInv_readBytes d hb
      | dCompactBytes => simp only [runOp]; exact (StepInv_readCompact d hb).2
      | dArray dflt elemOp =>
        simp only [runOp]
        have h1 : StepInv d (d.readInt32).2 := StepInv_readFull d 4 hb
        by_cases hneg : (d.readInt32).1 < 0
        · rw [if_pos hneg]
          exact h1
        · rw [if_neg hneg]
          have hlt : sizeOf elemOp < N := by
            have : sizeOf elemOp < sizeOf (DecodeOp.dArray dflt elemOp) := by
              simp
            omega
          have Helem := (IH (sizeOf elemOp) hlt).1 elemOp (Nat.le_refl _)
          refine Inv_trans h1 (StepInv_runArray_of rf elemOp ?_
            ((d.readInt32).1.toNat + 1) 0 (d.readInt32).1.toNat
            (List.replicate (d.readInt32).1.toNat dflt) (d.readInt32).2
            (by omega) (h1.bulk.trans hb))
          intro d' v' hb'
          exact Helem d' v' hb' (by simpa [readerFree] using hf)
      | dStruct p =>
        simp only [runOp]
        have hlt : sizeOf p < N := by
          have : sizeOf p < sizeOf (DecodeOp.dStruct p) := by
            simp
          omega
        exact (IH (sizeOf p) hlt).2 p (Nat.le_refl _) d v hb
          (by simpa [readerFree] using hf)
      | dReader => simp [readerFree] at hf
    · intro p hsz d v hb hf
      cases p with
      | nil =>
        rw [runPlan]
        exact StepInv_refl d
      | cons i op rest =>
        rw [runPlan]
        have hf' : readerFree op = true ∧ planReaderFree rest = true := by
          simpa [planReaderFree, Bool.and_eq_true] using hf
        have hlt1 : sizeOf op < N := by
          have : sizeOf op < sizeOf (Plan.cons i op rest) := by
            simp
            omega
          omega
        have hlt2 : sizeOf rest < N := by
          have : sizeOf rest < sizeOf (Plan.cons i op rest) := by
            simp
          omega
        have h1 := (IH (sizeOf op) hlt1).1 op (Nat.le_refl _) d (v.fieldAt i) hb hf'.1
        exact Inv_trans h1 ((IH (sizeOf rest) hlt2).2 rest (Nat.le_refl _)
          (runOp rf op d (v.fieldAt i)).2
          (v.setFieldAt i (runOp rf op d (v.fieldAt i)).1)
          (h1.bulk.trans hb) hf'.2)

/-- Every reader-free compiled operation respects the step invariant on
a bulk-skip reader. -/
theorem StepInv_runOp (rf : SelfDec) (op : DecodeOp) (d : Decoder) (v : Value)
    (hb : d.bulk = true) (hf : readerFree op = true) :
    StepInv d (runOp rf op d v).2 :=
  (StepInv_run_all rf (sizeOf op)).1 op (Nat.le_refl _) d v hb hf

/-! ## Budget/cursor accounting of a full decode call (C1) -/

/-- Counterexample to C1 as stated: decoding an `int64` frame (the
operation the schema compiler emits for a 64-bit field) with budget
`L = 8` from a source holding only 3 bytes terminates with the
truncated-input error, but the source cursor advances by 3 bytes — all
that exist — not by `L = 8` as the claim requires, and the budget
accounting is left at `remain = 5`. -/
theorem C1_drain_cex :
    decodeFuncOf (GoType.mk false GoKind.kInt64) 0 (structTag.mk 0 0 false)
      = DecodeOp.dInt64 ∧
    (decodeCall (fun _ => (0, none)) DecodeOp.dInt64
        (Decoder.mk [1, 2, 3] 8 none true) (Value.vInt64 0)).2
      = Decoder.mk [] 5 (some Err.ueof) true ∧
    ([1, 2, 3] : List Nat).length
        - (Decoder.mk [] 5 (some Err.ueof) true).src.length ≠ 8 := by
  refine ⟨by simp [decodeFuncOf], ?_, by decide⟩
  have hx : xfer (Decoder.mk [1, 2, 3] 8 none true) 8 = 3 := by decide
  have h2 : (Decoder.mk [1, 2, 3] 8 none true).readFull 8
      = (false, [1, 2, 3], Decoder.mk [] 5 (some Err.ueof) true) := by
    rw [readFull_fail (Decoder.mk [1, 2, 3] 8 none true) 8 rfl (by decide), hx]
    decide
  have h1 : runOp (fun _ => (0, none)) DecodeOp.dInt64
      (Decoder.mk [1, 2, 3] 8 none true) (Value.vInt64 0)
      = (Value.vInt64 ((Decoder.mk [1, 2, 3] 8 none true).readInt64).1,
         ((Decoder.mk [1, 2, 3] 8 none true).readInt64).2) := by
    simp only [runOp]
  have h3 : ((Decoder.mk [1, 2, 3] 8 none true).readInt64).2
      = Decoder.mk [] 5 (some Err.ueof) true := by
    unfold Decoder.readInt64
    rw [h2]
  have hcall : (decodeCall (fun _ => (0, none)) DecodeOp.dInt64
      (Decoder.mk [1, 2, 3] 8 none true) (Value.vInt64 0)).2
      = (runOp (fun _ => (0, none)) DecodeOp.dInt64
          (Decoder.mk [1, 2, 3] 8 none true) (Value.vInt64 0)).2.discardAll := rfl
  rw [hcall, h1, h3]
  decide

/-- C1 (amended): with a bulk-skip (`discarder`) source and a compiled
plan free of the self-decoding escape hatch, a decode call with budget
`L` always leaves the frame in the drained position the machinery can
reach: the source cursor advances by exactly `min L available` bytes
(the full budget when the source suffices, everything that exists
otherwise), the budget accounting ends at `remain = L - min L available`
(zero on a sufficient source), and a source shorter than `L` always
leaves a non-nil sticky error.  The original claim's "cursor advances by
exactly `L`, not more and not less" is impossible when the source holds
fewer than `L` bytes, and neither clause survives the self-decoding
escape hatch (which reads the raw source behind the budget) or the
copy-to-nowhere fallback (whose post-error drain moves nothing). -/
theorem C1_drain_amended (rf : SelfDec) (op : DecodeOp) (src : List Nat)
    (L : Nat) (v : Value) (hf : readerFree op = true) :
    src.length
        - ((decodeCall rf op (Decoder.mk src L none true) v).2).src.length
        = min L src.length ∧
    ((decodeCall rf op (Decoder.mk src L none true) v).2).remain
        = L - min L src.length ∧
    (src.length < L →
      ((decodeCall rf op (Decoder.mk src L none true) v).2).err ≠ none) := by
  have hstep : StepInv (Decoder.mk src L none true)
      (runOp rf op (Decoder.mk src L none true) v).2 :=
    StepInv_runOp rf op (Decoder.mk src L none true) v rfl hf
  have hcall : (decodeCall rf op (Decoder.mk src L none true) v).2
      = (runOp rf op (Decoder.mk src L none true) v).2.discardAll := rfl
  rw [hcall]
  generalize hg : (runOp rf op (Decoder.mk src L none true) v).2 = d1
  rw [hg] at hstep
  have hb1 : d1.bulk = true := hstep.bulk
  have hr : d1.remain ≤ L := hstep.remain_le
  have hs : d1.src.length ≤ src.length := hstep.src_le
  have hacc : L - d1.remain = src.length - d1.src.length := hstep.account
  have hall : d1.discardAll = d1.discard d1.remain := rfl
  cases herr : d1.err with
  | none =>
    rw [hall, discard_spec_bulk d1 d1.remain herr hb1]
    refine ⟨?_, ?_, ?_⟩
    · dsimp only
      simp only [List.length_drop]
      omega
    · dsimp only
      omega
    · intro hlen
      dsimp only
      have hco : min (min d1.remain d1.remain) d1.src.length
          < min d1.remain d1.remain := by
        omega
      rw [if_pos hco]
      simp
  | some e =>
    have hdr : d1.remain = 0 ∨ d1.src.length = 0 := by
      rcases hstep.drained (by rw [herr]; simp) with h | h
      · exact absurd rfl h
      · exact h
    rw [hall, discard_err_bulk d1 d1.remain e herr hb1]
    refine ⟨?_, ?_, ?_⟩
    · dsimp only
      simp only [List.length_drop]
      omega
    · dsimp only
      omega
    · intro hlen
      dsimp only
      rw [herr]
      simp

/-- Witness for the amended C1 at a concrete short source: an `int64`
decode with budget 8 over a 3-byte bulk-skip source advances the cursor
by `min 8 3 = 3` bytes, ends with `remain = 8 - 3 = 5`, and carries a
non-nil sticky error. -/
theorem C1_drain_amended_witness :
    readerFree DecodeOp.dInt64 = true ∧
    (([1, 2, 3] : List Nat).length
        - ((decodeCall (fun _ => (0, none)) DecodeOp.dInt64
            (Decoder.mk [1, 2, 3] 8 none true) (Value.vInt64 0)).2).src.length
        = min 8 ([1, 2, 3] : List Nat).length ∧
     ((decodeCall (fun _ => (0, none)) DecodeOp.dInt64
        (Decoder.mk [1, 2, 3] 8 none true) (Value.vInt64 0)).2).remain
        = 8 - min 8 ([1, 2, 3] : List Nat).length ∧
     (([1, 2, 3] : List Nat).length < 8 →
       ((decodeCall (fun _ => (0, none)) DecodeOp.dInt64
          (Decoder.mk [1, 2, 3] 8 none true) (Value.vInt64 0)).2).err ≠ none)) :=
  ⟨by simp [readerFree],
   C1_drain_amended (fun _ => (0, none)) DecodeOp.dInt64 [1, 2, 3] 8
     (Value.vInt64 0) (by simp [readerFree])⟩
